import Mathlib

/-!
# Single-body penalty-contact simulator (`moleculardynamics/myV9.cpp`)

A shallow embedding of the simulator's state, force evaluator, integrator and
main loop, followed by theorems about them.

Modelling conventions
* `double a[3]` is a record of three components, read and written through
  `Vec3.get` / `Vec3.set` when the source indexes it with a loop variable.
* `std::vector<body>` is a `List body`; a function that mutates the vector in
  place returns the new vector.
* The source is embedded twice.
  - Exact arithmetic (namespace `MD`): a C++ `double` is an exact rational
    number, every operation is the exact one, decimal literals such as `323.9`
    denote the decimal value itself; rounding, infinities and NaN are outside
    this model.  Division is the total division of `ℚ`; every statement that
    divides by the mass assumes the mass is non-zero.
  - Binary64 arithmetic (namespace `MD.F64`): a finite `double` is the
    rational it denotes, every operation rounds its exact result to the
    nearest binary64 number, ties to even (`fl`), one rounding per operation,
    no fused multiply-add and no extended precision; a literal denotes the
    binary64 number nearest to it.  A function returns `none` as soon as a
    result is not finite (overflow, division by zero).  The two zeros are
    identified, which no comparison or finite result of the source can tell
    apart.
  Statements whose truth depends on rounding (exact trajectories, exact mirror
  images) are settled on the binary64 embedding.
-/

namespace MD

/-! ## Data model -/

/-- The C array `double a[3]`. -/
structure Vec3 where
  x : ℚ
  y : ℚ
  z : ℚ
  deriving DecidableEq

/-- Array read `a[ii]`. -/
def Vec3.get (a : Vec3) (ii : Fin 3) : ℚ :=
  match ii with
  | 0 => a.x
  | 1 => a.y
  | 2 => a.z

/-- Array write `a[ii] = val`. -/
def Vec3.set (a : Vec3) (ii : Fin 3) (val : ℚ) : Vec3 :=
  match ii with
  | 0 => { a with x := val }
  | 1 => { a with y := val }
  | 2 => { a with z := val }

/-- The source's `struct body`. -/
structure body where
  mass : ℚ
  radius : ℚ
  r : Vec3
  v : Vec3
  f : Vec3
  deriving DecidableEq

/-! ## Simulation conditions -/

def N : Nat := 1
def G : ℚ := 0.0
def DT : ℚ := 0.01
def K : ℚ := 323.9
def B : ℚ := 0.9
def LX : ℚ := 3.2
def LXMIN : ℚ := -0.5
def LZMAX : ℚ := 10.32

/-! ## Helper functions of the source -/

/-- Body of `initial_conditions`: assigns five fields of `bodies[0]`. -/
def initial_conditions (bodies : List body) : List body :=
  match bodies with
  | [] => []
  | b :: rest =>
    { b with
      mass := 1.23
      radius := 0.16
      r := { b.r with z := 7.86 }
      v := { b.v with x := 0.87, z := 1.32 } } :: rest

/-- One pass of the inner loop of `timestep` for the axis `ii`. -/
def timestep_axis (dt : ℚ) (cuerpo : body) (ii : Fin 3) : body :=
  let c1 : body :=
    { cuerpo with v := cuerpo.v.set ii (cuerpo.v.get ii + dt * cuerpo.f.get ii / cuerpo.mass) }
  { c1 with r := c1.r.set ii (c1.r.get ii + c1.v.get ii * dt) }

/-- The index range of `for(int ii = 0; ii <= 2; ++ii)`. -/
def axes : List (Fin 3) := [0, 1, 2]

/-- The per-body part of `timestep`. -/
def timestep_body (dt : ℚ) (cuerpo : body) : body :=
  axes.foldl (timestep_axis dt) cuerpo

/-- The source's `timestep`. -/
def timestep (bodies : List body) (dt : ℚ) : List body :=
  bodies.map (timestep_body dt)

/-- One pass of the inner loop of `start_timeintegration` for the axis `ii`. -/
def start_axis (dt : ℚ) (cuerpo : body) (ii : Fin 3) : body :=
  { cuerpo with
    v := cuerpo.v.set ii (cuerpo.v.get ii - dt * cuerpo.f.get ii / (2 * cuerpo.mass)) }

/-- The per-body part of `start_timeintegration`. -/
def start_body (dt : ℚ) (cuerpo : body) : body :=
  axes.foldl (start_axis dt) cuerpo

/-- The source's `start_timeintegration`. -/
def start_timeintegration (bodies : List body) (dt : ℚ) : List body :=
  bodies.map (start_body dt)

/-- First loop of `compute_force`: `f[0] = f[1] = f[2] = 0.0`. -/
def reset_force (cuerpo : body) : body :=
  { cuerpo with f := ⟨0.0, 0.0, 0.0⟩ }

/-- Gravity: `f[2] -= mass*G`. -/
def add_gravity (cuerpo : body) : body :=
  { cuerpo with f := { cuerpo.f with z := cuerpo.f.z - cuerpo.mass * G } }

/-- Floor force. -/
def add_floor (cuerpo : body) : body :=
  let delta := cuerpo.radius - cuerpo.r.z
  if delta > 0 then
    { cuerpo with f := { cuerpo.f with z := cuerpo.f.z + (K * delta - B * cuerpo.mass * cuerpo.v.z) } }
  else cuerpo

/-- Right wall force. -/
def add_right_wall (cuerpo : body) : body :=
  let delta := cuerpo.r.x + cuerpo.radius - LX
  if delta > 0 then
    { cuerpo with f := { cuerpo.f with x := cuerpo.f.x + (-K * delta - B * cuerpo.mass * cuerpo.v.x) } }
  else cuerpo

/-- Left wall force. -/
def add_left_wall (cuerpo : body) : body :=
  let delta := LXMIN - (cuerpo.r.x - cuerpo.radius)
  if delta > 0 then
    { cuerpo with f := { cuerpo.f with x := cuerpo.f.x + (K * delta - B * cuerpo.mass * cuerpo.v.x) } }
  else cuerpo

/-- Upper (ceiling) force. -/
def add_upper (cuerpo : body) : body :=
  let delta := cuerpo.r.z + cuerpo.radius - LZMAX
  if delta > 0 then
    { cuerpo with f := { cuerpo.f with z := cuerpo.f.z + (-K * delta - B * cuerpo.mass * cuerpo.v.z) } }
  else cuerpo

/-- Body of the second loop of `compute_force`, in source order. -/
def add_forces (cuerpo : body) : body :=
  add_upper (add_left_wall (add_right_wall (add_floor (add_gravity cuerpo))))

/-- The source's `compute_force`: reset every force, then accumulate. -/
def compute_force (bodies : List body) : List body :=
  (bodies.map reset_force).map add_forces

/-! ## The main program -/

/-- One line of console output: time, position, velocity of `bodies[0]`. -/
structure line where
  tstep : ℚ
  rx : ℚ
  ry : ℚ
  rz : ℚ
  vx : ℚ
  vy : ℚ
  vz : ℚ
  deriving DecidableEq

/-- A value-initialised `body`, as `std::vector<body> bodies(N)` creates. -/
def zero_body : body := ⟨0, 0, ⟨0, 0, 0⟩, ⟨0, 0, 0⟩, ⟨0, 0, 0⟩⟩

/-- The `std::cout` statement of the loop; `none` if there is no `bodies[0]`. -/
def print_line (step : Nat) (bodies : List body) : Option line :=
  bodies.head?.map fun b =>
    ⟨(step : ℚ) * DT, b.r.x, b.r.y, b.r.z, b.v.x, b.v.y, b.v.z⟩

/-- Pre-processing of `main`. -/
def pre_processing : List body :=
  start_timeintegration (compute_force (initial_conditions (List.replicate N zero_body))) DT

/-- Body of the processing loop without the output statement. -/
def loop_body (bodies : List body) : List body :=
  compute_force (timestep bodies DT)

/-- The processing loop: `count` further iterations starting at `step`;
returns the lines printed and the final bodies. -/
def main_loop : Nat → Nat → List body → List (Option line) × List body
  | 0, _, bodies => ([], bodies)
  | count + 1, step, bodies =>
    let out := main_loop count (step + 1) (loop_body bodies)
    (print_line step bodies :: out.1, out.2)

/-- The source's `main`: console lines and the bodies passed to `print_system`. -/
def main : List (Option line) × List body :=
  main_loop 1000 0 pre_processing

/-! ## Auxiliary definitions used in the statements -/

/-- The two loops of `compute_force` act on each body separately. -/
def compute_force_body (cuerpo : body) : body :=
  add_forces (reset_force cuerpo)

/-- Horizontal force assigned by `compute_force`, as one expression. -/
def force_x (c : body) : ℚ :=
  (if c.r.x + c.radius - LX > 0 then -K * (c.r.x + c.radius - LX) - B * c.mass * c.v.x else 0)
  + (if LXMIN - (c.r.x - c.radius) > 0 then K * (LXMIN - (c.r.x - c.radius)) - B * c.mass * c.v.x
     else 0)

/-- Vertical force assigned by `compute_force`, as one expression. -/
def force_z (c : body) : ℚ :=
  -c.mass * G
  + (if c.radius - c.r.z > 0 then K * (c.radius - c.r.z) - B * c.mass * c.v.z else 0)
  + (if c.r.z + c.radius - LZMAX > 0 then -K * (c.r.z + c.radius - LZMAX) - B * c.mass * c.v.z
     else 0)

/-- One iteration of the processing loop with time step `dt`, for one body. -/
def step_body (dt : ℚ) (c : body) : body :=
  compute_force_body (timestep_body dt c)

/-- Decision procedure: a printed line exists and its position lies within
`[LXMIN - 0.16, LX + 0.16]` horizontally and `[0, LZMAX + 0.16]` vertically. -/
def line_ok (l : Option line) : Bool :=
  match l with
  | none => false
  | some ln =>
    decide (LXMIN - 0.16 ≤ ln.rx) && decide (ln.rx ≤ LX + 0.16) &&
      decide (0 ≤ ln.rz) && decide (ln.rz ≤ LZMAX + 0.16)

/-- Decision procedure: a body has radius `0.16` and its position lies within
`[LXMIN - radius, LX + radius]` horizontally and `[0, LZMAX + radius]`
vertically. -/
def body_ok (b : body) : Bool :=
  decide (b.radius = 0.16) &&
    decide (LXMIN - b.radius ≤ b.r.x) && decide (b.r.x ≤ LX + b.radius) &&
      decide (0 ≤ b.r.z) && decide (b.r.z ≤ LZMAX + b.radius)

/-! ## Binary64 arithmetic -/

/-- Nearest natural number to `n / d` (for `d > 0`), ties to the even one. -/
def round_half_even (n d : Nat) : Nat :=
  if 2 * (n % d) < d then n / d
  else if d < 2 * (n % d) then n / d + 1
  else if (n / d) % 2 = 0 then n / d
  else n / d + 1

/-- Whether `2 ^ e ≤ n / d`, for `d > 0`. -/
def pow2_le (e : Int) (n d : Nat) : Bool :=
  if 0 ≤ e then decide (2 ^ e.toNat * d ≤ n) else decide (d ≤ n * 2 ^ (-e).toNat)

/-- Binary logarithm by repeated halving, with `fuel` halvings allowed. -/
def log2_fuel : Nat → Nat → Nat
  | 0, _ => 0
  | fuel + 1, n => if n < 2 then 0 else log2_fuel fuel (n / 2) + 1

/-- The exponent `⌊log₂ n⌋` of a positive natural number. -/
def log2 (n : Nat) : Nat := log2_fuel n n

/-- The exponent `⌊log₂ (n / d)⌋` of a positive fraction. -/
def ilog2 (n d : Nat) : Int :=
  if pow2_le ((log2 n : Int) - (log2 d : Int)) n d
  then (log2 n : Int) - (log2 d : Int)
  else (log2 n : Int) - (log2 d : Int) - 1

/-- Exponent of the unit in the last place of binary64 numbers of binary
exponent `e`: 53 significant bits, subnormal below `2 ^ (-1022)`. -/
def ulp_exp (e : Int) : Int :=
  max e (-1022) - 52

/-- The positive fraction `n / d` rounded to the nearest multiple of its unit
in the last place, ties to even (exponent range unbounded above). -/
def round_pos (n d : Nat) : ℚ :=
  if 0 ≤ ulp_exp (ilog2 n d) then
    ((round_half_even n (d * 2 ^ (ulp_exp (ilog2 n d)).toNat)
      * 2 ^ (ulp_exp (ilog2 n d)).toNat : ℕ) : ℚ)
  else
    ((round_half_even (n * 2 ^ (-ulp_exp (ilog2 n d)).toNat) d : ℕ) : ℚ)
      / ((2 ^ (-ulp_exp (ilog2 n d)).toNat : ℕ) : ℚ)

/-- Round to nearest, ties to even, on the binary64 grid. -/
def rn (q : ℚ) : ℚ :=
  if q = 0 then 0
  else if 0 < q then round_pos q.num.natAbs q.den
  else -round_pos q.num.natAbs q.den

/-- The largest finite binary64 number, `(2 ^ 53 - 1) * 2 ^ 971`. -/
def max_finite : ℚ := (2 ^ 53 - 1) * 2 ^ 971

/-- The binary64 result of an operation whose exact result is `q`: the rounded
value, or `none` when the result overflows to an infinity. -/
def fl (q : ℚ) : Option ℚ :=
  if |rn q| ≤ max_finite then some (rn q) else none

/-- Binary64 `a + b` on finite operands. -/
def fadd (a b : ℚ) : Option ℚ := fl (a + b)

/-- Binary64 `a - b` on finite operands. -/
def fsub (a b : ℚ) : Option ℚ := fl (a - b)

/-- Binary64 `a * b` on finite operands. -/
def fmul (a b : ℚ) : Option ℚ := fl (a * b)

/-- Binary64 `a / b` on finite operands; `none` for a zero divisor (the
result is an infinity or NaN). -/
def fdiv (a b : ℚ) : Option ℚ := if b = 0 then none else fl (a / b)

/-- A rational is a finite binary64 number when rounding leaves it unchanged. -/
def is_double (q : ℚ) : Prop := fl q = some q

instance is_double_decidable (q : ℚ) : Decidable (is_double q) :=
  inferInstanceAs (Decidable (fl q = some q))

/-- The pairs `(M, t)` of an integer significand and a unit exponent that
binary64 uses: normal numbers and subnormal numbers. -/
def canonical (M : Nat) (t : ℤ) : Prop :=
  (2 ^ 52 ≤ M ∧ M < 2 ^ 53 ∧ -1074 ≤ t) ∨ (0 < M ∧ M < 2 ^ 52 ∧ t = -1074)

/-! ## The source under binary64 arithmetic

The same functions with every arithmetic operation rounded as the hardware
does (round to nearest, ties to even, one rounding per operation).  A function
returns `none` as soon as an operation leaves the finite range; stored values
are rationals that are meant to be finite binary64 numbers. -/

namespace F64

def G : ℚ := rn 0.0
def DT : ℚ := rn 0.01
def K : ℚ := rn 323.9
def B : ℚ := rn 0.9
def LX : ℚ := rn 3.2
def LXMIN : ℚ := -rn 0.5
def LZMAX : ℚ := rn 10.32

/-- The loop `for (auto & cuerpo : bodies)` with a loop body `g` that may leave
the finite range. -/
def for_each (g : body → Option body) : List body → Option (List body)
  | [] => some []
  | cuerpo :: rest => do
    let c1 ← g cuerpo
    let rest1 ← for_each g rest
    pure (c1 :: rest1)

/-- One pass of the inner loop of `timestep` for the axis `ii`:
`v[ii] += dt*f[ii]/mass; r[ii] += v[ii]*dt`. -/
def timestep_axis (dt : ℚ) (cuerpo : body) (ii : Fin 3) : Option body := do
  let t1 ← fmul dt (cuerpo.f.get ii)
  let t2 ← fdiv t1 cuerpo.mass
  let vii ← fadd (cuerpo.v.get ii) t2
  let t3 ← fmul vii dt
  let rii ← fadd (cuerpo.r.get ii) t3
  pure { cuerpo with v := cuerpo.v.set ii vii, r := cuerpo.r.set ii rii }

/-- The per-body part of `timestep`. -/
def timestep_body (dt : ℚ) (cuerpo : body) : Option body :=
  axes.foldlM (timestep_axis dt) cuerpo

/-- The source's `timestep`. -/
def timestep (bodies : List body) (dt : ℚ) : Option (List body) :=
  for_each (timestep_body dt) bodies

/-- One pass of the inner loop of `start_timeintegration` for the axis `ii`:
`v[ii] = v[ii] - dt*f[ii]/(2*mass)`. -/
def start_axis (dt : ℚ) (cuerpo : body) (ii : Fin 3) : Option body := do
  let t1 ← fmul dt (cuerpo.f.get ii)
  let t2 ← fmul 2 cuerpo.mass
  let t3 ← fdiv t1 t2
  let vii ← fsub (cuerpo.v.get ii) t3
  pure { cuerpo with v := cuerpo.v.set ii vii }

/-- The per-body part of `start_timeintegration`. -/
def start_body (dt : ℚ) (cuerpo : body) : Option body :=
  axes.foldlM (start_axis dt) cuerpo

/-- The source's `start_timeintegration`. -/
def start_timeintegration (bodies : List body) (dt : ℚ) : Option (List body) :=
  for_each (start_body dt) bodies

/-- Gravity: `f[2] -= mass*G`. -/
def add_gravity (cuerpo : body) : Option body := do
  let t ← fmul cuerpo.mass G
  let fz ← fsub cuerpo.f.z t
  pure { cuerpo with f := { cuerpo.f with z := fz } }

/-- The penetration depth `radius - r[2]` at the floor. -/
def delta_floor (cuerpo : body) : Option ℚ :=
  fsub cuerpo.radius cuerpo.r.z

/-- The penetration depth `r[0] + radius - LX` at the right wall. -/
def delta_right (cuerpo : body) : Option ℚ := do
  let t ← fadd cuerpo.r.x cuerpo.radius
  fsub t LX

/-- The penetration depth `LXMIN - (r[0] - radius)` at the left wall. -/
def delta_left (cuerpo : body) : Option ℚ := do
  let t ← fsub cuerpo.r.x cuerpo.radius
  fsub LXMIN t

/-- The penetration depth `r[2] + radius - LZMAX` at the ceiling. -/
def delta_upper (cuerpo : body) : Option ℚ := do
  let t ← fadd cuerpo.r.z cuerpo.radius
  fsub t LZMAX

/-- The contact term `k*delta - B*mass*vel`, with `k` one of `K`, `-K`. -/
def contact_term (k delta mass vel : ℚ) : Option ℚ := do
  let t1 ← fmul k delta
  let t2 ← fmul B mass
  let t3 ← fmul t2 vel
  fsub t1 t3

/-- Floor force: `if (delta > 0) f[2] += K*delta - B*mass*v[2]`. -/
def add_floor (cuerpo : body) : Option body := do
  let delta ← delta_floor cuerpo
  if delta > 0 then
    let t ← contact_term K delta cuerpo.mass cuerpo.v.z
    let fz ← fadd cuerpo.f.z t
    pure { cuerpo with f := { cuerpo.f with z := fz } }
  else pure cuerpo

/-- Right wall force: `if (delta > 0) f[0] += -K*delta - B*mass*v[0]`. -/
def add_right_wall (cuerpo : body) : Option body := do
  let delta ← delta_right cuerpo
  if delta > 0 then
    let t ← contact_term (-K) delta cuerpo.mass cuerpo.v.x
    let fx ← fadd cuerpo.f.x t
    pure { cuerpo with f := { cuerpo.f with x := fx } }
  else pure cuerpo

/-- Left wall force: `if (delta > 0) f[0] += +K*delta - B*mass*v[0]`. -/
def add_left_wall (cuerpo : body) : Option body := do
  let delta ← delta_left cuerpo
  if delta > 0 then
    let t ← contact_term K delta cuerpo.mass cuerpo.v.x
    let fx ← fadd cuerpo.f.x t
    pure { cuerpo with f := { cuerpo.f with x := fx } }
  else pure cuerpo

/-- Upper (ceiling) force: `if (delta > 0) f[2] += -K*delta - B*mass*v[2]`. -/
def add_upper (cuerpo : body) : Option body := do
  let delta ← delta_upper cuerpo
  if delta > 0 then
    let t ← contact_term (-K) delta cuerpo.mass cuerpo.v.z
    let fz ← fadd cuerpo.f.z t
    pure { cuerpo with f := { cuerpo.f with z := fz } }
  else pure cuerpo

/-- Body of the second loop of `compute_force`, in source order. -/
def add_forces (cuerpo : body) : Option body := do
  let c1 ← add_gravity cuerpo
  let c2 ← add_floor c1
  let c3 ← add_right_wall c2
  let c4 ← add_left_wall c3
  add_upper c4

/-- The source's `compute_force`: reset every force, then accumulate. -/
def compute_force (bodies : List body) : Option (List body) :=
  for_each add_forces (bodies.map reset_force)

/-- The loop body of `main` with time step `dt`, `n` times:
`timestep(bodies, dt); compute_force(bodies)`. -/
def loop_iterate (dt : ℚ) : Nat → List body → Option (List body)
  | 0, bodies => some bodies
  | n + 1, bodies => do
    let b1 ← timestep bodies dt
    let b2 ← compute_force b1
    loop_iterate dt n b2

/-- The call `timestep(bodies, dt)` repeated `n` times, the force untouched. -/
def timestep_iterate (dt : ℚ) : Nat → List body → Option (List body)
  | 0, bodies => some bodies
  | n + 1, bodies => do
    let b1 ← timestep bodies dt
    timestep_iterate dt n b1

end F64

/-! ## Free flight as the binary64 code computes it -/

namespace F64

/-- The statement `r[ii] += v[ii]*dt` for the three axes: the position after
one step at velocity `v`. -/
def advance (dt : ℚ) (v r : Vec3) : Option Vec3 := do
  let tx ← fmul v.x dt
  let x ← fadd r.x tx
  let ty ← fmul v.y dt
  let y ← fadd r.y ty
  let tz ← fmul v.z dt
  let z ← fadd r.z tz
  pure ⟨x, y, z⟩

/-- The position after `j` steps at the constant velocity `v`, each step
rounded as the code rounds it. -/
def free_position (dt : ℚ) (v : Vec3) : Nat → Vec3 → Option Vec3
  | 0, r => some r
  | j + 1, r => do
    let r1 ← advance dt v r
    free_position dt v j r1

/-- The four penetration depths that `compute_force` computes for the body are
finite and none is positive. -/
def no_contact (c : body) : Prop :=
  (∃ d ∈ delta_floor c, d ≤ 0) ∧ (∃ d ∈ delta_upper c, d ≤ 0) ∧
  (∃ d ∈ delta_right c, d ≤ 0) ∧ (∃ d ∈ delta_left c, d ≤ 0)

instance no_contact_decidable (c : body) : Decidable (no_contact c) :=
  inferInstanceAs (Decidable ((∃ d ∈ delta_floor c, d ≤ 0) ∧ (∃ d ∈ delta_upper c, d ≤ 0) ∧
    (∃ d ∈ delta_right c, d ≤ 0) ∧ (∃ d ∈ delta_left c, d ≤ 0)))

end F64

/-! ## Mirror images as the binary64 code sees them -/

namespace F64

/-- The body `b` with its horizontal velocity negated and its horizontal
position replaced by `x`. -/
def reflect (b : body) (x : ℚ) : body :=
  { b with r := { b.r with x := x }, v := { b.v with x := -b.v.x } }

/-- The state `c` reflected: horizontal position `x`, horizontal velocity and
horizontal force negated. -/
def reflect_state (x : ℚ) (c : body) : body :=
  { c with r := { c.r with x := x }, v := { c.v with x := -c.v.x },
           f := { c.f with x := -c.f.x } }

/-- The value of `f[0]` after one wall statement
`if (delta > 0) f[0] += k*delta - B*mass*v[0]`, the depth being `o`. -/
def wall_step (k : ℚ) (o : Option ℚ) (mass vel fx : ℚ) : Option ℚ := do
  let delta ← o
  if delta > 0 then
    let t ← contact_term k delta mass vel
    fadd fx t
  else pure fx

end F64

/-! ## Steps of the integrator that incur no rounding -/

namespace F64

/-- The five operations of `v[ii] += dt*f[ii]/mass; r[ii] += v[ii]*dt` on the
body `c` have exact results that are binary64 numbers, so none of them rounds. -/
def exact_axis (dt : ℚ) (c : body) (ii : Fin 3) : Prop :=
  is_double (dt * c.f.get ii) ∧ is_double (dt * c.f.get ii / c.mass) ∧
  is_double (c.v.get ii + dt * c.f.get ii / c.mass) ∧
  is_double ((c.v.get ii + dt * c.f.get ii / c.mass) * dt) ∧
  is_double (c.r.get ii + (c.v.get ii + dt * c.f.get ii / c.mass) * dt)

instance exact_axis_decidable (dt : ℚ) (c : body) (ii : Fin 3) :
    Decidable (exact_axis dt c ii) :=
  inferInstanceAs (Decidable (
    is_double (dt * c.f.get ii) ∧ is_double (dt * c.f.get ii / c.mass) ∧
    is_double (c.v.get ii + dt * c.f.get ii / c.mass) ∧
    is_double ((c.v.get ii + dt * c.f.get ii / c.mass) * dt) ∧
    is_double (c.r.get ii + (c.v.get ii + dt * c.f.get ii / c.mass) * dt)))

/-- No operation of one call of `timestep` on the body `c` rounds. -/
def exact_step (dt : ℚ) (c : body) : Prop :=
  exact_axis dt c 0 ∧ exact_axis dt c 1 ∧ exact_axis dt c 2

instance exact_step_decidable (dt : ℚ) (c : body) : Decidable (exact_step dt c) :=
  inferInstanceAs (Decidable (exact_axis dt c 0 ∧ exact_axis dt c 1 ∧ exact_axis dt c 2))

/-- The four operations of `v[ii] = v[ii] - dt*f[ii]/(2*mass)` on the body `c`
have exact results that are binary64 numbers. -/
def exact_start_axis (dt : ℚ) (c : body) (ii : Fin 3) : Prop :=
  is_double (dt * c.f.get ii) ∧ is_double (2 * c.mass) ∧
  is_double (dt * c.f.get ii / (2 * c.mass)) ∧
  is_double (c.v.get ii - dt * c.f.get ii / (2 * c.mass))

instance exact_start_axis_decidable (dt : ℚ) (c : body) (ii : Fin 3) :
    Decidable (exact_start_axis dt c ii) :=
  inferInstanceAs (Decidable (
    is_double (dt * c.f.get ii) ∧ is_double (2 * c.mass) ∧
    is_double (dt * c.f.get ii / (2 * c.mass)) ∧
    is_double (c.v.get ii - dt * c.f.get ii / (2 * c.mass))))

/-- No operation of `start_timeintegration` on the body `c` rounds. -/
def exact_start (dt : ℚ) (c : body) : Prop :=
  exact_start_axis dt c 0 ∧ exact_start_axis dt c 1 ∧ exact_start_axis dt c 2

instance exact_start_decidable (dt : ℚ) (c : body) : Decidable (exact_start dt c) :=
  inferInstanceAs (Decidable
    (exact_start_axis dt c 0 ∧ exact_start_axis dt c 1 ∧ exact_start_axis dt c 2))

end F64

/-! ## Closed forms of the per-body loops -/

theorem compute_force_eq_map (bodies : List body) :
    compute_force bodies = bodies.map compute_force_body := by
  simp [compute_force, compute_force_body, List.map_map, Function.comp_def]

theorem timestep_body_eq (dt : ℚ) (c : body) :
    timestep_body dt c =
      { c with
        v := ⟨c.v.x + dt * c.f.x / c.mass, c.v.y + dt * c.f.y / c.mass,
              c.v.z + dt * c.f.z / c.mass⟩
        r := ⟨c.r.x + (c.v.x + dt * c.f.x / c.mass) * dt,
              c.r.y + (c.v.y + dt * c.f.y / c.mass) * dt,
              c.r.z + (c.v.z + dt * c.f.z / c.mass) * dt⟩ } := by
  rfl

theorem start_body_eq (dt : ℚ) (c : body) :
    start_body dt c =
      { c with
        v := ⟨c.v.x - dt * c.f.x / (2 * c.mass), c.v.y - dt * c.f.y / (2 * c.mass),
              c.v.z - dt * c.f.z / (2 * c.mass)⟩ } := by
  rfl

theorem compute_force_body_eq (c : body) :
    compute_force_body c = { c with f := ⟨force_x c, 0, force_z c⟩ } := by
  simp only [compute_force_body, add_forces, add_upper, add_left_wall, add_right_wall,
    add_floor, add_gravity, reset_force, force_x, force_z]
  split_ifs <;> norm_num

/-! ## Theorems about the force evaluator -/

/-- C1: after `compute_force` the vertical force of every body is
`-mass*G` plus the floor term plus the ceiling term, with `G = 0`, `K = 323.9`,
`B = 0.9`, `LZMAX = 10.32`, whatever the previous force; a term is absent at
exactly zero penetration. -/
theorem compute_force_vertical :
    (∀ bodies : List body,
      (compute_force bodies).map (fun c => c.f.z) =
        bodies.map (fun c =>
          -c.mass * 0
          + (if c.radius - c.r.z > 0
              then 323.9 * (c.radius - c.r.z) - 0.9 * c.mass * c.v.z else 0)
          + (if c.r.z + c.radius - 10.32 > 0
              then -323.9 * (c.r.z + c.radius - 10.32) - 0.9 * c.mass * c.v.z else 0)))
    ∧ (∀ c : body, c.radius - c.r.z = 0 →
        (compute_force [c]).map (fun c => c.f.z) =
          [-c.mass * 0 + 0
            + (if c.r.z + c.radius - 10.32 > 0
                then -323.9 * (c.r.z + c.radius - 10.32) - 0.9 * c.mass * c.v.z else 0)])
    ∧ (∀ c : body, c.r.z + c.radius - 10.32 = 0 →
        (compute_force [c]).map (fun c => c.f.z) =
          [-c.mass * 0
            + (if c.radius - c.r.z > 0
                then 323.9 * (c.radius - c.r.z) - 0.9 * c.mass * c.v.z else 0)
            + 0]) := by
  have key : ∀ c : body, (compute_force_body c).f.z =
      -c.mass * 0
        + (if c.radius - c.r.z > 0
            then 323.9 * (c.radius - c.r.z) - 0.9 * c.mass * c.v.z else 0)
        + (if c.r.z + c.radius - 10.32 > 0
            then -323.9 * (c.r.z + c.radius - 10.32) - 0.9 * c.mass * c.v.z else 0) := by
    intro c
    rw [compute_force_body_eq]
    simp only [force_z, G, K, B, LZMAX]
    norm_num
  refine ⟨?_, ?_, ?_⟩
  · intro bodies
    rw [compute_force_eq_map, List.map_map]
    exact List.map_congr_left (fun c _ => key c)
  · intro c h
    rw [compute_force_eq_map]
    simp only [List.map_cons, List.map_nil, key, h, lt_irrefl, gt_iff_lt, if_false]
  · intro c h
    rw [compute_force_eq_map]
    simp only [List.map_cons, List.map_nil, key, h, lt_irrefl, gt_iff_lt, if_false]

/-- Witness of C1: a body resting exactly on the floor (`r_z = radius`) gets
no floor term, and one touching the ceiling exactly gets no ceiling term. -/
theorem compute_force_vertical_witness :
    (compute_force [⟨1.23, 0.16, ⟨0, 0, 0.16⟩, ⟨0, 0, -1⟩, ⟨7, 8, 9⟩⟩]).map (fun c => c.f.z)
        = [-(1.23 : ℚ) * 0 + 0
            + (if (0.16 : ℚ) + 0.16 - 10.32 > 0
                then -323.9 * ((0.16 : ℚ) + 0.16 - 10.32) - 0.9 * 1.23 * (-1) else 0)]
    ∧ (compute_force [⟨1.23, 0.16, ⟨0, 0, 10.16⟩, ⟨0, 0, 1⟩, ⟨7, 8, 9⟩⟩]).map (fun c => c.f.z)
        = [-(1.23 : ℚ) * 0
            + (if (0.16 : ℚ) - 10.16 > 0
                then 323.9 * ((0.16 : ℚ) - 10.16) - 0.9 * 1.23 * 1 else 0)
            + 0] :=
  ⟨compute_force_vertical.2.1 ⟨1.23, 0.16, ⟨0, 0, 0.16⟩, ⟨0, 0, -1⟩, ⟨7, 8, 9⟩⟩ (by norm_num),
   compute_force_vertical.2.2 ⟨1.23, 0.16, ⟨0, 0, 10.16⟩, ⟨0, 0, 1⟩, ⟨7, 8, 9⟩⟩ (by norm_num)⟩

/-- C2: after `compute_force` the horizontal force of every body is the
right-wall term plus the left-wall term, with `K = 323.9`, `B = 0.9`,
`LX = 3.2`, `LXMIN = -0.5`, whatever the previous force. -/
theorem compute_force_horizontal (bodies : List body) :
    (compute_force bodies).map (fun c => c.f.x) =
      bodies.map (fun c =>
        (if c.r.x + c.radius - 3.2 > 0
          then -323.9 * (c.r.x + c.radius - 3.2) - 0.9 * c.mass * c.v.x else 0)
        + (if -0.5 - (c.r.x - c.radius) > 0
            then 323.9 * (-0.5 - (c.r.x - c.radius)) - 0.9 * c.mass * c.v.x else 0)) := by
  rw [compute_force_eq_map, List.map_map]
  refine List.map_congr_left (fun c _ => ?_)
  simp only [Function.comp_apply, compute_force_body_eq, force_x, K, B, LX, LXMIN]

/-- C3: a body that penetrates none of the four boundaries gets the force
`(0, 0, 0)` from `compute_force`, whatever its velocity, mass and previous
force; equivalently a non-zero force after `compute_force` implies that one of
the four penetration depths is positive. -/
theorem no_contact_no_force (bodies : List body) (i : Nat) (c : body)
    (hc : bodies[i]? = some c) :
    (c.radius - c.r.z ≤ 0 → c.r.z + c.radius - LZMAX ≤ 0 →
      c.r.x + c.radius - LX ≤ 0 → LXMIN - (c.r.x - c.radius) ≤ 0 →
        ((compute_force bodies)[i]?).map (fun c' => c'.f) = some ⟨0, 0, 0⟩)
    ∧ (∀ c' : body, (compute_force bodies)[i]? = some c' → c'.f ≠ ⟨0, 0, 0⟩ →
        (c.radius - c.r.z > 0 ∨ c.r.z + c.radius - LZMAX > 0 ∨
          c.r.x + c.radius - LX > 0 ∨ LXMIN - (c.r.x - c.radius) > 0)) := by
  have hi : (compute_force bodies)[i]? = some (compute_force_body c) := by
    rw [compute_force_eq_map, List.getElem?_map, hc]; rfl
  have inside : c.radius - c.r.z ≤ 0 → c.r.z + c.radius - LZMAX ≤ 0 →
      c.r.x + c.radius - LX ≤ 0 → LXMIN - (c.r.x - c.radius) ≤ 0 →
        (compute_force_body c).f = ⟨0, 0, 0⟩ := by
    intro h1 h2 h3 h4
    rw [compute_force_body_eq]
    simp only [force_x, force_z, G, not_lt.mpr h1, not_lt.mpr h2, not_lt.mpr h3,
      not_lt.mpr h4, gt_iff_lt, if_false]
    norm_num
  refine ⟨fun h1 h2 h3 h4 => ?_, fun c' hc' hne => ?_⟩
  · rw [hi, Option.map_some', inside h1 h2 h3 h4]
  · rw [hi] at hc'
    obtain rfl := Option.some.inj hc'
    by_contra hcon
    simp only [not_or, not_lt, gt_iff_lt] at hcon
    exact hne (inside hcon.1 hcon.2.1 hcon.2.2.1 hcon.2.2.2)

/-- Witness of C3: the body of the hardcoded initial conditions, with a stale
force, is inside all boundaries and gets zero force; a body sunk into the
floor has a non-zero force and a positive depth. -/
theorem no_contact_no_force_witness :
    ((compute_force [⟨1.23, 0.16, ⟨0, 0, 7.86⟩, ⟨0.87, 0, 1.32⟩, ⟨5, 6, 7⟩⟩])[0]?).map
        (fun c' => c'.f) = some ⟨0, 0, 0⟩
    ∧ ((0.16 : ℚ) - 0.1 > 0 ∨ (0.1 : ℚ) + 0.16 - LZMAX > 0 ∨
          (0 : ℚ) + 0.16 - LX > 0 ∨ LXMIN - ((0 : ℚ) - 0.16) > 0) :=
  ⟨(no_contact_no_force [⟨1.23, 0.16, ⟨0, 0, 7.86⟩, ⟨0.87, 0, 1.32⟩, ⟨5, 6, 7⟩⟩] 0
      ⟨1.23, 0.16, ⟨0, 0, 7.86⟩, ⟨0.87, 0, 1.32⟩, ⟨5, 6, 7⟩⟩ rfl).1
      (by norm_num) (by norm_num [LZMAX]) (by norm_num [LX]) (by norm_num [LXMIN]),
   (no_contact_no_force [⟨1.23, 0.16, ⟨0, 0, 0.1⟩, ⟨0, 0, 0⟩, ⟨0, 0, 0⟩⟩] 0
      ⟨1.23, 0.16, ⟨0, 0, 0.1⟩, ⟨0, 0, 0⟩, ⟨0, 0, 0⟩⟩ rfl).2
      (compute_force_body ⟨1.23, 0.16, ⟨0, 0, 0.1⟩, ⟨0, 0, 0⟩, ⟨0, 0, 0⟩⟩)
      (by rw [compute_force_eq_map]; rfl)
      (by
        rw [compute_force_body_eq]
        intro h
        have hz := congrArg Vec3.z h
        norm_num [force_z, G, K, B, LZMAX] at hz)⟩

/-- C5: the force evaluator is idempotent: a second call in a row changes
nothing, neither the forces nor any other field of any body. -/
theorem compute_force_idempotent (bodies : List body) :
    compute_force (compute_force bodies) = compute_force bodies := by
  rw [compute_force_eq_map, compute_force_eq_map, List.map_map]
  refine List.map_congr_left (fun c _ => ?_)
  simp only [Function.comp_apply]
  rw [compute_force_body_eq (compute_force_body c), compute_force_body_eq c]
  simp [force_x, force_z]

/-! ## Theorems about the integrator -/

/-- C9: per-step update.  For bodies of non-zero mass, `timestep` sets on each
axis `v' = v + dt*f/mass` and `r' = r + v'*dt`, the position using the updated
velocity, that is `r' = r + dt*v + dt^2*f/mass`; `f`, `mass` and `radius` are
unchanged. -/
theorem timestep_update (bodies : List body) (dt : ℚ) (hm : ∀ c ∈ bodies, c.mass ≠ 0) :
    timestep bodies dt =
        bodies.map (fun c =>
          { mass := c.mass, radius := c.radius, f := c.f,
            v := ⟨c.v.x + dt * c.f.x / c.mass, c.v.y + dt * c.f.y / c.mass,
                  c.v.z + dt * c.f.z / c.mass⟩,
            r := ⟨c.r.x + (c.v.x + dt * c.f.x / c.mass) * dt,
                  c.r.y + (c.v.y + dt * c.f.y / c.mass) * dt,
                  c.r.z + (c.v.z + dt * c.f.z / c.mass) * dt⟩ })
    ∧ (timestep bodies dt).map (fun c => c.r) =
        bodies.map (fun c =>
          (⟨c.r.x + dt * c.v.x + dt ^ 2 * c.f.x / c.mass,
            c.r.y + dt * c.v.y + dt ^ 2 * c.f.y / c.mass,
            c.r.z + dt * c.v.z + dt ^ 2 * c.f.z / c.mass⟩ : Vec3)) := by
  constructor
  · exact List.map_congr_left (fun c _ => timestep_body_eq dt c)
  · rw [timestep, List.map_map]
    refine List.map_congr_left (fun c hc => ?_)
    have hne : c.mass ≠ 0 := hm c hc
    simp only [Function.comp_apply, timestep_body_eq, Vec3.mk.injEq]
    refine ⟨?_, ?_, ?_⟩ <;> field_simp <;> ring

/-- Witness of C9: one step of a body of mass 2 under force `(4, 0, -2)`. -/
theorem timestep_update_witness :
    timestep [⟨2, 1, ⟨0, 0, 5⟩, ⟨1, 0, 0⟩, ⟨4, 0, -2⟩⟩] (1 / 2) =
      [⟨2, 1, ⟨1, 0, 19 / 4⟩, ⟨2, 0, -1 / 2⟩, ⟨4, 0, -2⟩⟩] := by
  have h := (timestep_update [⟨2, 1, ⟨0, 0, 5⟩, ⟨1, 0, 0⟩, ⟨4, 0, -2⟩⟩] (1 / 2)
    (by intro c hc; rw [List.mem_singleton] at hc; subst hc; norm_num)).1
  rw [h]
  norm_num

/-- C10: half-step initializer.  For bodies of non-zero mass,
`start_timeintegration` sets on each axis `v' = v - dt*f/(2*mass)` and leaves
`r`, `f`, `mass` and `radius` unchanged. -/
theorem start_timeintegration_update (bodies : List body) (dt : ℚ)
    (_hm : ∀ c ∈ bodies, c.mass ≠ 0) :
    start_timeintegration bodies dt =
      bodies.map (fun c =>
        { mass := c.mass, radius := c.radius, r := c.r, f := c.f,
          v := ⟨c.v.x - dt * c.f.x / (2 * c.mass), c.v.y - dt * c.f.y / (2 * c.mass),
                c.v.z - dt * c.f.z / (2 * c.mass)⟩ }) :=
  List.map_congr_left (fun c _ => start_body_eq dt c)

/-- Witness of C10: the back-step of a body of mass 2 under force `(4, 0, -2)`. -/
theorem start_timeintegration_update_witness :
    start_timeintegration [⟨2, 1, ⟨0, 0, 5⟩, ⟨1, 0, 0⟩, ⟨4, 0, -2⟩⟩] (1 / 2) =
      [⟨2, 1, ⟨0, 0, 5⟩, ⟨1 / 2, 0, 1 / 4⟩, ⟨4, 0, -2⟩⟩] := by
  have h := start_timeintegration_update [⟨2, 1, ⟨0, 0, 5⟩, ⟨1, 0, 0⟩, ⟨4, 0, -2⟩⟩] (1 / 2)
    (by intro c hc; rw [List.mem_singleton] at hc; subst hc; norm_num)
  rw [h]
  norm_num

/-! ## Theorems about the main loop -/

theorem compute_force_body_congr (c : body) (g : Vec3) :
    compute_force_body { c with f := g } = compute_force_body c := by
  rw [compute_force_body_eq, compute_force_body_eq]
  simp [force_x, force_z]

theorem iterate_loop_eq_map (dt : ℚ) (n : Nat) (bodies : List body) :
    (fun bs => compute_force (timestep bs dt))^[n] bodies
      = bodies.map (step_body dt)^[n] := by
  induction n generalizing bodies with
  | zero => simp
  | succ k ih =>
    rw [Function.iterate_succ_apply, ih, compute_force_eq_map, timestep, List.map_map,
      List.map_map]
    refine List.map_congr_left (fun c _ => ?_)
    simp only [Function.comp_apply, Function.iterate_succ_apply, step_body]

/-- Free flight of one body in exact arithmetic: while the positions
`r + j*dt*v` are inside all boundaries, `k` iterations translate the body by
`k*dt*v`.  The binary64 code rounds each step; see `F64_loop_free`. -/
theorem step_body_free (dt : ℚ) (c : body) (hf : compute_force_body c = c) (n : Nat)
    (hin : ∀ j < n,
      c.radius - (c.r.z + j * dt * c.v.z) ≤ 0 ∧ (c.r.z + j * dt * c.v.z) + c.radius - LZMAX ≤ 0 ∧
      (c.r.x + j * dt * c.v.x) + c.radius - LX ≤ 0 ∧
      LXMIN - ((c.r.x + j * dt * c.v.x) - c.radius) ≤ 0) :
    (step_body dt)^[n] c = compute_force_body
      { c with r := ⟨c.r.x + n * dt * c.v.x, c.r.y + n * dt * c.v.y, c.r.z + n * dt * c.v.z⟩ } := by
  induction n with
  | zero =>
    simp only [Function.iterate_zero, id_eq, Nat.cast_zero, zero_mul, add_zero]
    exact hf.symm
  | succ k ih =>
    rw [Function.iterate_succ_apply', ih (fun j hj => hin j (Nat.lt_succ_of_lt hj))]
    obtain ⟨h1, h2, h3, h4⟩ := hin k (Nat.lt_succ_self k)
    have hzero : compute_force_body
        { c with r := ⟨c.r.x + k * dt * c.v.x, c.r.y + k * dt * c.v.y, c.r.z + k * dt * c.v.z⟩ }
        = { c with
            r := ⟨c.r.x + k * dt * c.v.x, c.r.y + k * dt * c.v.y, c.r.z + k * dt * c.v.z⟩,
            f := ⟨0, 0, 0⟩ } := by
      rw [compute_force_body_eq]
      simp only [force_x, force_z, G, not_lt.mpr h1, not_lt.mpr h2, not_lt.mpr h3,
        not_lt.mpr h4, gt_iff_lt, if_false]
      norm_num
    have hr : (⟨c.r.x + k * dt * c.v.x + (c.v.x + dt * 0 / c.mass) * dt,
          c.r.y + k * dt * c.v.y + (c.v.y + dt * 0 / c.mass) * dt,
          c.r.z + k * dt * c.v.z + (c.v.z + dt * 0 / c.mass) * dt⟩ : Vec3)
        = ⟨c.r.x + (k + 1 : ℕ) * dt * c.v.x, c.r.y + (k + 1 : ℕ) * dt * c.v.y,
            c.r.z + (k + 1 : ℕ) * dt * c.v.z⟩ := by
      simp only [Vec3.mk.injEq, mul_zero, zero_div, add_zero, Nat.cast_add, Nat.cast_one]
      refine ⟨?_, ?_, ?_⟩ <;> ring
    have hv : (⟨c.v.x + dt * 0 / c.mass, c.v.y + dt * 0 / c.mass,
          c.v.z + dt * 0 / c.mass⟩ : Vec3) = c.v := by
      simp only [mul_zero, zero_div, add_zero]
    rw [hzero, step_body, timestep_body_eq]
    dsimp only
    rw [hr, hv, compute_force_body_eq, compute_force_body_eq]
    simp [force_x, force_z]

/-- C7: end-to-end step 0.  After `initial_conditions`, `compute_force` and
`start_timeintegration(DT)` on one zero-initialised body, the body has
`mass = 1.23`, `radius = 0.16`, `r = (0, 0, 7.86)`, `v = (0.87, 0, 1.32)` and
zero force, and the first line reported by the loop has the seven fields
`0 0 0 7.86 0.87 0 1.32`. -/
theorem step_zero_report :
    compute_force (initial_conditions (List.replicate N zero_body))
      = [⟨1.23, 0.16, ⟨0, 0, 7.86⟩, ⟨0.87, 0, 1.32⟩, ⟨0, 0, 0⟩⟩]
    ∧ pre_processing = [⟨1.23, 0.16, ⟨0, 0, 7.86⟩, ⟨0.87, 0, 1.32⟩, ⟨0, 0, 0⟩⟩]
    ∧ main.1[0]? = some (some ⟨0, 0, 0, 7.86, 0.87, 0, 1.32⟩) := by
  have h0 : compute_force (initial_conditions (List.replicate N zero_body))
      = [⟨1.23, 0.16, ⟨0, 0, 7.86⟩, ⟨0.87, 0, 1.32⟩, ⟨0, 0, 0⟩⟩] := by
    simp only [N, List.replicate, initial_conditions, zero_body, compute_force_eq_map,
      List.map_cons, List.map_nil, compute_force_body_eq, force_x, force_z, G, K, B, LX,
      LXMIN, LZMAX]
    norm_num
  have h1 : pre_processing = [⟨1.23, 0.16, ⟨0, 0, 7.86⟩, ⟨0.87, 0, 1.32⟩, ⟨0, 0, 0⟩⟩] := by
    rw [pre_processing, h0]
    simp only [start_timeintegration, List.map_cons, List.map_nil, start_body_eq]
    norm_num
  refine ⟨h0, h1, ?_⟩
  rw [main, h1, show (1000 : Nat) = 999 + 1 from rfl, main_loop]
  simp only [List.getElem?_cons_zero, print_line, List.head?_cons, Option.map_some']
  norm_num

theorem main_loop_length (count step : Nat) (bodies : List body) :
    (main_loop count step bodies).1.length = count := by
  induction count generalizing step bodies with
  | zero => rfl
  | succ k ih => simp [main_loop, ih]

theorem main_loop_bodies_length (count step : Nat) (bodies : List body) :
    (main_loop count step bodies).2.length = bodies.length := by
  induction count generalizing step bodies with
  | zero => rfl
  | succ k ih =>
    simp [main_loop, ih, loop_body, compute_force_eq_map, timestep]

set_option maxRecDepth 100000 in
/-- Exact evaluation of the hardcoded run: all 1000 printed lines and the
final bodies pass the bound checks. -/
theorem main_run_checked : (main.1.all line_ok && main.2.all body_ok) = true := by
  decide!

/-- C8: bounded trajectory of the hardcoded run.  At each of the 1000 steps
reported by the main loop and in the final state, for every `ε > 0`,
`LXMIN - radius - ε ≤ r_x ≤ LX + radius + ε` and
`0 - ε ≤ r_z ≤ LZMAX + radius + ε`, with `radius = 0.16`. -/
theorem bounded_trajectory (ε : ℚ) (hε : ε > 0) :
    main.1.length = 1000
    ∧ (∀ l ∈ main.1, ∃ ln : line, l = some ln ∧
        LXMIN - 0.16 - ε ≤ ln.rx ∧ ln.rx ≤ LX + 0.16 + ε ∧
        0 - ε ≤ ln.rz ∧ ln.rz ≤ LZMAX + 0.16 + ε)
    ∧ main.2.length = 1
    ∧ (∀ b ∈ main.2, b.radius = 0.16 ∧
        LXMIN - b.radius - ε ≤ b.r.x ∧ b.r.x ≤ LX + b.radius + ε ∧
        0 - ε ≤ b.r.z ∧ b.r.z ≤ LZMAX + b.radius + ε) := by
  have hchk := main_run_checked
  rw [Bool.and_eq_true, List.all_eq_true, List.all_eq_true] at hchk
  refine ⟨main_loop_length _ _ _, ?_, ?_, ?_⟩
  · intro l hl
    have h := hchk.1 l hl
    cases l with
    | none => simp [line_ok] at h
    | some ln =>
      simp only [line_ok, Bool.and_eq_true, decide_eq_true_eq] at h
      obtain ⟨⟨⟨h1, h2⟩, h3⟩, h4⟩ := h
      exact ⟨ln, rfl, by linarith, by linarith, by linarith, by linarith⟩
  · rw [main, main_loop_bodies_length]; rfl
  · intro b hb
    have h := hchk.2 b hb
    simp only [body_ok, Bool.and_eq_true, decide_eq_true_eq] at h
    obtain ⟨⟨⟨⟨h0, h1⟩, h2⟩, h3⟩, h4⟩ := h
    exact ⟨h0, by linarith, by linarith, by linarith, by linarith⟩

/-- Witness of C8 at `ε = 1/1000`. -/
theorem bounded_trajectory_witness :
    main.1.length = 1000
    ∧ (∀ l ∈ main.1, ∃ ln : line, l = some ln ∧
        LXMIN - 0.16 - 1 / 1000 ≤ ln.rx ∧ ln.rx ≤ LX + 0.16 + 1 / 1000 ∧
        0 - 1 / 1000 ≤ ln.rz ∧ ln.rz ≤ LZMAX + 0.16 + 1 / 1000)
    ∧ main.2.length = 1
    ∧ (∀ b ∈ main.2, b.radius = 0.16 ∧
        LXMIN - b.radius - 1 / 1000 ≤ b.r.x ∧ b.r.x ≤ LX + b.radius + 1 / 1000 ∧
        0 - 1 / 1000 ≤ b.r.z ∧ b.r.z ≤ LZMAX + b.radius + 1 / 1000) :=
  bounded_trajectory (1 / 1000) (by norm_num)

/-! ## Statelessness and per-body independence of the force evaluator -/

/-- C11: the force carries no state between steps.  Two collections that
agree on `mass`, `radius`, `r` and `v` of every body, whatever their `f`, get
identical results from `compute_force`; and `compute_force` changes none of
`mass`, `radius`, `r`, `v` of any body. -/
theorem compute_force_stateless :
    (∀ xs ys : List body,
      xs.map (fun c => (c.mass, c.radius, c.r, c.v))
        = ys.map (fun c => (c.mass, c.radius, c.r, c.v)) →
      compute_force xs = compute_force ys)
    ∧ (∀ bodies : List body,
        (compute_force bodies).map (fun c => (c.mass, c.radius, c.r, c.v))
          = bodies.map (fun c => (c.mass, c.radius, c.r, c.v))) := by
  constructor
  · intro xs
    induction xs with
    | nil =>
      intro ys h
      cases ys with
      | nil => rfl
      | cons y ys => simp at h
    | cons x xs ih =>
      intro ys h
      cases ys with
      | nil => simp at h
      | cons y ys =>
        simp only [List.map_cons, List.cons.injEq, Prod.mk.injEq] at h
        obtain ⟨⟨hm, hrad, hr, hv⟩, htl⟩ := h
        have hxy : compute_force_body x = compute_force_body y := by
          rw [compute_force_body_eq, compute_force_body_eq]
          simp only [force_x, force_z, hm, hrad, hr, hv]
        have htl2 := ih ys htl
        rw [compute_force_eq_map, compute_force_eq_map] at htl2 ⊢
        simp only [List.map_cons, hxy, htl2]
  · intro bodies
    rw [compute_force_eq_map, List.map_map]
    refine List.map_congr_left (fun c _ => ?_)
    simp only [Function.comp_apply, compute_force_body_eq]

/-- Witness of C11: the same body with two different stale forces. -/
theorem compute_force_stateless_witness :
    compute_force [⟨1.23, 0.16, ⟨0, 0, 0.1⟩, ⟨0.87, 0, 1.32⟩, ⟨5, 6, 7⟩⟩]
      = compute_force [⟨1.23, 0.16, ⟨0, 0, 0.1⟩, ⟨0.87, 0, 1.32⟩, ⟨-1, 2, 0⟩⟩] :=
  compute_force_stateless.1
    [⟨1.23, 0.16, ⟨0, 0, 0.1⟩, ⟨0.87, 0, 1.32⟩, ⟨5, 6, 7⟩⟩]
    [⟨1.23, 0.16, ⟨0, 0, 0.1⟩, ⟨0.87, 0, 1.32⟩, ⟨-1, 2, 0⟩⟩] rfl

/-- C12: per-body independence.  `compute_force` distributes over
concatenation, preserves the length, and the body it returns at position `i`
is the one it returns for the collection made of body `i` alone, so no
inter-body term exists. -/
theorem compute_force_per_body :
    (∀ xs ys : List body, compute_force (xs ++ ys) = compute_force xs ++ compute_force ys)
    ∧ (∀ bodies : List body, (compute_force bodies).length = bodies.length)
    ∧ (∀ (bodies : List body) (i : Nat) (b : body), bodies[i]? = some b →
        (compute_force bodies)[i]? = (compute_force [b])[0]?)
    ∧ (∀ b b' : body, b.mass = b'.mass → b.radius = b'.radius → b.r = b'.r → b.v = b'.v →
        (compute_force [b]).map (fun c => c.f) = (compute_force [b']).map (fun c => c.f)) := by
  refine ⟨?_, ?_, ?_, ?_⟩
  · intro xs ys
    simp only [compute_force_eq_map, List.map_append]
  · intro bodies
    simp only [compute_force_eq_map, List.length_map]
  · intro bodies i b hb
    simp only [compute_force_eq_map, List.getElem?_map, hb, List.map_cons, List.map_nil,
      List.getElem?_cons_zero, Option.map_some']
  · intro b b' hm hrad hr hv
    simp only [compute_force_eq_map, List.map_cons, List.map_nil, compute_force_body_eq,
      force_x, force_z, hm, hrad, hr, hv]

/-- Witness of C12: the second of two bodies gets the force it gets alone. -/
theorem compute_force_per_body_witness :
    (compute_force [⟨2, 1, ⟨3, 0, 5⟩, ⟨1, 0, 0⟩, ⟨4, 0, -2⟩⟩,
        ⟨1.23, 0.16, ⟨0, 0, 0.1⟩, ⟨0.87, 0, 1.32⟩, ⟨5, 6, 7⟩⟩])[1]?
      = (compute_force [⟨1.23, 0.16, ⟨0, 0, 0.1⟩, ⟨0.87, 0, 1.32⟩, ⟨5, 6, 7⟩⟩])[0]?
    ∧ (compute_force [⟨1.23, 0.16, ⟨0, 0, 0.1⟩, ⟨0.87, 0, 1.32⟩, ⟨5, 6, 7⟩⟩]).map (fun c => c.f)
      = (compute_force [⟨1.23, 0.16, ⟨0, 0, 0.1⟩, ⟨0.87, 0, 1.32⟩, ⟨0, 0, 0⟩⟩]).map
          (fun c => c.f) :=
  ⟨compute_force_per_body.2.2.1
      [⟨2, 1, ⟨3, 0, 5⟩, ⟨1, 0, 0⟩, ⟨4, 0, -2⟩⟩,
        ⟨1.23, 0.16, ⟨0, 0, 0.1⟩, ⟨0.87, 0, 1.32⟩, ⟨5, 6, 7⟩⟩] 1
      ⟨1.23, 0.16, ⟨0, 0, 0.1⟩, ⟨0.87, 0, 1.32⟩, ⟨5, 6, 7⟩⟩ rfl,
   compute_force_per_body.2.2.2
      ⟨1.23, 0.16, ⟨0, 0, 0.1⟩, ⟨0.87, 0, 1.32⟩, ⟨5, 6, 7⟩⟩
      ⟨1.23, 0.16, ⟨0, 0, 0.1⟩, ⟨0.87, 0, 1.32⟩, ⟨0, 0, 0⟩⟩ rfl rfl rfl rfl⟩

/-! ## Structure of the hardcoded run -/

theorem loop_body_iterate (n : Nat) (bodies : List body) :
    loop_body^[n] bodies = bodies.map (step_body DT)^[n] :=
  iterate_loop_eq_map DT n bodies

theorem main_loop_snd (count step : Nat) (bodies : List body) :
    (main_loop count step bodies).2 = loop_body^[count] bodies := by
  induction count generalizing step bodies with
  | zero => rfl
  | succ k ih => simp only [main_loop, ih, Function.iterate_succ_apply]

theorem main_loop_mem (count step : Nat) (bodies : List body) (l : Option line)
    (hl : l ∈ (main_loop count step bodies).1) :
    ∃ k, k < count ∧ l = print_line (step + k) (loop_body^[k] bodies) := by
  induction count generalizing step bodies with
  | zero => simp [main_loop] at hl
  | succ n ih =>
    simp only [main_loop, List.mem_cons] at hl
    rcases hl with h | h
    · exact ⟨0, Nat.succ_pos n, by simpa using h⟩
    · obtain ⟨k, hk, hkl⟩ := ih (step + 1) (loop_body bodies) h
      refine ⟨k + 1, Nat.succ_lt_succ hk, ?_⟩
      rw [hkl, Function.iterate_succ_apply]
      congr 1
      omega

theorem pre_processing_eq :
    pre_processing = [⟨1.23, 0.16, ⟨0, 0, 7.86⟩, ⟨0.87, 0, 1.32⟩, ⟨0, 0, 0⟩⟩] := by
  simp only [pre_processing, N, List.replicate, initial_conditions, zero_body,
    compute_force_eq_map, List.map_cons, List.map_nil, compute_force_body_eq, force_x, force_z,
    G, K, B, LX, LXMIN, LZMAX, start_timeintegration, start_body_eq]
  norm_num

theorem step_body_mass_radius (dt : ℚ) (c : body) :
    (step_body dt c).mass = c.mass ∧ (step_body dt c).radius = c.radius := by
  rw [step_body, compute_force_body_eq, timestep_body_eq]
  exact ⟨rfl, rfl⟩

theorem step_body_iterate_mass_radius (dt : ℚ) (n : Nat) (c : body) :
    ((step_body dt)^[n] c).mass = c.mass ∧ ((step_body dt)^[n] c).radius = c.radius := by
  induction n with
  | zero => exact ⟨rfl, rfl⟩
  | succ k ih =>
    rw [Function.iterate_succ_apply']
    exact ⟨(step_body_mass_radius dt _).1.trans ih.1, (step_body_mass_radius dt _).2.trans ih.2⟩

/-- C13: mass and radius invariant.  None of `timestep`,
`start_timeintegration` and `compute_force` modifies `mass` or `radius`; in
the hardcoded run the single body has `mass = 1.23 > 0` and
`radius = 0.16 > 0` after initialisation, after the first force evaluation,
after the half-step back-step, after any number of loop iterations and in the
final state, so every division by the mass has a non-zero divisor. -/
theorem mass_radius_invariant :
    (∀ (bodies : List body) (dt : ℚ),
      (timestep bodies dt).map (fun c => (c.mass, c.radius))
        = bodies.map (fun c => (c.mass, c.radius)))
    ∧ (∀ (bodies : List body) (dt : ℚ),
      (start_timeintegration bodies dt).map (fun c => (c.mass, c.radius))
        = bodies.map (fun c => (c.mass, c.radius)))
    ∧ (∀ bodies : List body,
      (compute_force bodies).map (fun c => (c.mass, c.radius))
        = bodies.map (fun c => (c.mass, c.radius)))
    ∧ (initial_conditions (List.replicate N zero_body)).map (fun c => (c.mass, c.radius))
        = [(1.23, 0.16)]
    ∧ (compute_force (initial_conditions (List.replicate N zero_body))).map
        (fun c => (c.mass, c.radius)) = [(1.23, 0.16)]
    ∧ (∀ step : Nat,
        (loop_body^[step] pre_processing).map (fun c => (c.mass, c.radius)) = [(1.23, 0.16)]
        ∧ (timestep (loop_body^[step] pre_processing) DT).map (fun c => (c.mass, c.radius))
            = [(1.23, 0.16)])
    ∧ main.2 = loop_body^[1000] pre_processing
    ∧ main.2.map (fun c => (c.mass, c.radius)) = [(1.23, 0.16)]
    ∧ (1.23 : ℚ) > 0 ∧ (0.16 : ℚ) > 0 ∧ (1.23 : ℚ) ≠ 0 := by
  have hts : ∀ (bodies : List body) (dt : ℚ),
      (timestep bodies dt).map (fun c => (c.mass, c.radius))
        = bodies.map (fun c => (c.mass, c.radius)) := by
    intro bodies dt
    rw [timestep, List.map_map]
    refine List.map_congr_left (fun c _ => ?_)
    simp only [Function.comp_apply, timestep_body_eq]
  have hst : ∀ (bodies : List body) (dt : ℚ),
      (start_timeintegration bodies dt).map (fun c => (c.mass, c.radius))
        = bodies.map (fun c => (c.mass, c.radius)) := by
    intro bodies dt
    rw [start_timeintegration, List.map_map]
    refine List.map_congr_left (fun c _ => ?_)
    simp only [Function.comp_apply, start_body_eq]
  have hcf : ∀ bodies : List body,
      (compute_force bodies).map (fun c => (c.mass, c.radius))
        = bodies.map (fun c => (c.mass, c.radius)) := by
    intro bodies
    rw [compute_force_eq_map, List.map_map]
    refine List.map_congr_left (fun c _ => ?_)
    simp only [Function.comp_apply, compute_force_body_eq]
  have hinit : (initial_conditions (List.replicate N zero_body)).map
      (fun c => (c.mass, c.radius)) = [(1.23, 0.16)] := by
    simp only [N, List.replicate, initial_conditions, List.map_cons, List.map_nil]
  have hiter : ∀ step : Nat,
      (loop_body^[step] pre_processing).map (fun c => (c.mass, c.radius))
        = [(1.23, 0.16)] := by
    intro step
    rw [loop_body_iterate, pre_processing_eq]
    simp only [List.map_cons, List.map_nil, (step_body_iterate_mass_radius DT step _).1,
      (step_body_iterate_mass_radius DT step _).2]
  refine ⟨hts, hst, hcf, hinit, (hcf _).trans hinit,
    fun step => ⟨hiter step, (hts _ _).trans (hiter step)⟩, main_loop_snd _ _ _, ?_, ?_, ?_, ?_⟩
  · rw [main, main_loop_snd]; exact hiter 1000
  · norm_num
  · norm_num
  · norm_num

/-! ## Repeated `timestep` under a fixed force, in exact arithmetic -/

/-- Closed form of `n` calls of `timestep` on one body; the force is not
touched by `timestep`, so it is the same in every call. -/
theorem timestep_body_iterate (dt : ℚ) (n : Nat) (c : body) :
    (timestep_body dt)^[n] c =
      { mass := c.mass, radius := c.radius, f := c.f,
        v := ⟨c.v.x + n * dt * c.f.x / c.mass, c.v.y + n * dt * c.f.y / c.mass,
              c.v.z + n * dt * c.f.z / c.mass⟩,
        r := ⟨c.r.x + n * dt * c.v.x + (n * (n + 1) / 2) * dt ^ 2 * c.f.x / c.mass,
              c.r.y + n * dt * c.v.y + (n * (n + 1) / 2) * dt ^ 2 * c.f.y / c.mass,
              c.r.z + n * dt * c.v.z + (n * (n + 1) / 2) * dt ^ 2 * c.f.z / c.mass⟩ } := by
  induction n with
  | zero =>
    simp only [Function.iterate_zero, id_eq, Nat.cast_zero, zero_mul, zero_div, add_zero]
  | succ k ih =>
    rw [Function.iterate_succ_apply', ih, timestep_body_eq]
    simp only [body.mk.injEq, Vec3.mk.injEq, Nat.cast_add, Nat.cast_one, true_and, and_true]
    refine ⟨⟨?_, ?_, ?_⟩, ⟨?_, ?_, ?_⟩⟩ <;> ring

/-! ## The force-free y axis -/

theorem step_body_y (dt : ℚ) (c : body) (hf : c.f.y = 0) :
    (step_body dt c).f.y = 0 ∧ (step_body dt c).v.y = c.v.y
      ∧ (step_body dt c).r.y = c.r.y + c.v.y * dt := by
  rw [step_body, compute_force_body_eq, timestep_body_eq]
  simp [hf]

theorem step_body_iterate_y (dt : ℚ) (n : Nat) (c : body) (hf : c.f.y = 0) :
    ((step_body dt)^[n] c).f.y = 0 ∧ ((step_body dt)^[n] c).v.y = c.v.y
      ∧ ((step_body dt)^[n] c).r.y = c.r.y + n * dt * c.v.y := by
  induction n with
  | zero => simp [hf]
  | succ k ih =>
    obtain ⟨h1, h2, h3⟩ := ih
    obtain ⟨g1, g2, g3⟩ := step_body_y dt ((step_body dt)^[k] c) h1
    rw [Function.iterate_succ_apply']
    refine ⟨g1, g2.trans h2, ?_⟩
    rw [g3, h2, h3]
    push_cast
    ring

/-- C15: the y axis is force-free.  `compute_force` gives every body
`f_y = 0`; from a state produced by `compute_force`, for a body of non-zero
mass, `n` iterations of `timestep(dt)` followed by `compute_force` leave `v_y`
unchanged and give `r_y = r_y0 + n*dt*v_y0`; in the hardcoded run `r_y = 0`
and `v_y = 0` in every state, every printed line and the final state. -/
theorem y_axis_force_free :
    (∀ bodies : List body,
      (compute_force bodies).map (fun c => c.f.y) = bodies.map (fun _ => (0 : ℚ)))
    ∧ (∀ (s : List body) (dt : ℚ) (n i : Nat) (c : body),
        (compute_force s)[i]? = some c → c.mass ≠ 0 →
        ∃ c' : body,
          ((fun bs => compute_force (timestep bs dt))^[n] (compute_force s))[i]? = some c'
          ∧ c'.v.y = c.v.y ∧ c'.r.y = c.r.y + n * dt * c.v.y)
    ∧ (∀ step : Nat,
        (loop_body^[step] pre_processing).map (fun c => (c.r.y, c.v.y)) = [((0 : ℚ), (0 : ℚ))])
    ∧ (∀ l ∈ main.1, ∃ ln : line, l = some ln ∧ ln.ry = 0 ∧ ln.vy = 0)
    ∧ main.2.map (fun c => (c.r.y, c.v.y)) = [((0 : ℚ), (0 : ℚ))] := by
  have hy : ∀ bodies : List body,
      (compute_force bodies).map (fun c => c.f.y) = bodies.map (fun _ => (0 : ℚ)) := by
    intro bodies
    rw [compute_force_eq_map, List.map_map]
    refine List.map_congr_left (fun c _ => ?_)
    simp only [Function.comp_apply, compute_force_body_eq]
  have hrun : ∀ step : Nat,
      ((step_body DT)^[step] ⟨1.23, 0.16, ⟨0, 0, 7.86⟩, ⟨0.87, 0, 1.32⟩, ⟨0, 0, 0⟩⟩).r.y = 0
      ∧ ((step_body DT)^[step] ⟨1.23, 0.16, ⟨0, 0, 7.86⟩, ⟨0.87, 0, 1.32⟩, ⟨0, 0, 0⟩⟩).v.y
          = 0 := by
    intro step
    obtain ⟨_, h2, h3⟩ := step_body_iterate_y DT step
      ⟨1.23, 0.16, ⟨0, 0, 7.86⟩, ⟨0.87, 0, 1.32⟩, ⟨0, 0, 0⟩⟩ rfl
    exact ⟨by rw [h3]; simp, by rw [h2]⟩
  have hiter : ∀ step : Nat,
      (loop_body^[step] pre_processing).map (fun c => (c.r.y, c.v.y))
        = [((0 : ℚ), (0 : ℚ))] := by
    intro step
    rw [loop_body_iterate, pre_processing_eq]
    simp only [List.map_cons, List.map_nil, (hrun step).1, (hrun step).2]
  refine ⟨hy, ?_, hiter, ?_, ?_⟩
  · intro s dt n i c hc _
    have hfy : c.f.y = 0 := by
      rw [compute_force_eq_map, List.getElem?_map] at hc
      cases hs : s[i]? with
      | none => rw [hs] at hc; cases hc
      | some c0 =>
        rw [hs] at hc
        obtain rfl := Option.some.inj hc
        rw [compute_force_body_eq]
    obtain ⟨_, h2, h3⟩ := step_body_iterate_y dt n c hfy
    refine ⟨(step_body dt)^[n] c, ?_, h2, h3⟩
    rw [iterate_loop_eq_map, List.getElem?_map, hc]; rfl
  · intro l hl
    obtain ⟨k, _, hk⟩ := main_loop_mem 1000 0 pre_processing l hl
    rw [loop_body_iterate, pre_processing_eq] at hk
    simp only [List.map_cons, List.map_nil, print_line, List.head?_cons, Option.map_some'] at hk
    exact ⟨_, hk, (hrun k).1, (hrun k).2⟩
  · rw [main, main_loop_snd]; exact hiter 1000

/-- Witness of C15: three iterations from a state produced by
`compute_force`, for a body drifting along y. -/
theorem y_axis_force_free_witness :
    ∃ c' : body,
      ((fun bs => compute_force (timestep bs 0.01))^[3]
          (compute_force [⟨1.23, 0.16, ⟨0, 2, 0.1⟩, ⟨0.87, 5, 1.32⟩, ⟨0, 9, 0⟩⟩]))[0]? = some c'
      ∧ c'.v.y = 5 ∧ c'.r.y = 2 + (3 : ℕ) * 0.01 * 5 := by
  have h := y_axis_force_free.2.1 [⟨1.23, 0.16, ⟨0, 2, 0.1⟩, ⟨0.87, 5, 1.32⟩, ⟨0, 9, 0⟩⟩] 0.01 3 0
    (compute_force_body ⟨1.23, 0.16, ⟨0, 2, 0.1⟩, ⟨0.87, 5, 1.32⟩, ⟨0, 9, 0⟩⟩)
    (by rw [compute_force_eq_map]; rfl)
    (by rw [compute_force_body_eq]; norm_num)
  simp only [compute_force_body_eq] at h
  exact h

/-! ## Sign of the contact force and exclusiveness of opposite contacts -/

/-- C16: the penalty contact force is not always repulsive.  With `G = 0`, the
body with `mass = 1.23`, `radius = 0.16`, `r_z = 0.159`, `v_z = 1` penetrates
the floor, moves upward and gets `f_z = -0.7831 < 0` from `compute_force`,
the damper term `B*mass*v_z` exceeding the spring term `K*delta`; when
`v_z = 0` the floor term is exactly `K*delta > 0`. -/
theorem floor_force_can_attract :
    G = 0
    ∧ ((1.23 : ℚ) > 0 ∧ (0.16 : ℚ) - 0.159 > 0 ∧ (1 : ℚ) > 0
        ∧ (compute_force [⟨1.23, 0.16, ⟨0, 0, 0.159⟩, ⟨0, 0, 1⟩, ⟨0, 0, 0⟩⟩]).map
            (fun c => c.f.z) = [-0.7831]
        ∧ (-0.7831 : ℚ) < 0
        ∧ B * 1.23 * 1 > K * ((0.16 : ℚ) - 0.159))
    ∧ (∀ c : body, c.radius - c.r.z > 0 → c.v.z = 0 →
        (add_floor c).f.z = c.f.z + K * (c.radius - c.r.z) ∧ K * (c.radius - c.r.z) > 0)
    ∧ (∀ c : body, c.radius - c.r.z > 0 → c.v.z = 0 → c.r.z + c.radius - LZMAX ≤ 0 →
        (compute_force [c]).map (fun c => c.f.z) = [K * (c.radius - c.r.z)]) := by
  refine ⟨by norm_num [G], ⟨by norm_num, by norm_num, by norm_num, ?_, by norm_num,
    by norm_num [B, K]⟩, ?_, ?_⟩
  · simp only [compute_force_eq_map, List.map_cons, List.map_nil, compute_force_body_eq,
      force_z, G, K, B, LZMAX]
    norm_num
  · intro c hd hv
    have hK : (0 : ℚ) < K := by norm_num [K]
    refine ⟨?_, mul_pos hK hd⟩
    simp only [add_floor, hd, if_true, hv, mul_zero, sub_zero]
  · intro c hd hv hc
    simp only [compute_force_eq_map, List.map_cons, List.map_nil, compute_force_body_eq,
      force_z, G, hd, if_true, hv, not_lt.mpr hc, gt_iff_lt, if_false]
    norm_num

/-- Witness of C16: a body at rest sunk `0.06` into the floor is pushed up by
`K * 0.06`. -/
theorem floor_force_can_attract_witness :
    ((add_floor ⟨1.23, 0.16, ⟨0, 0, 0.1⟩, ⟨0.87, 0, 0⟩, ⟨0, 0, 0⟩⟩).f.z
        = 0 + K * ((0.16 : ℚ) - 0.1) ∧ K * ((0.16 : ℚ) - 0.1) > 0)
    ∧ (compute_force [⟨1.23, 0.16, ⟨0, 0, 0.1⟩, ⟨0.87, 0, 0⟩, ⟨0, 0, 0⟩⟩]).map
        (fun c => c.f.z) = [K * ((0.16 : ℚ) - 0.1)] :=
  ⟨floor_force_can_attract.2.2.1 ⟨1.23, 0.16, ⟨0, 0, 0.1⟩, ⟨0.87, 0, 0⟩, ⟨0, 0, 0⟩⟩
      (by norm_num) rfl,
   floor_force_can_attract.2.2.2 ⟨1.23, 0.16, ⟨0, 0, 0.1⟩, ⟨0.87, 0, 0⟩, ⟨0, 0, 0⟩⟩
      (by norm_num) rfl (by norm_num [LZMAX])⟩

/-- C17: opposite contacts are mutually exclusive for a body that fits in the
box.  If `2*radius ≤ LX - LXMIN` the two wall depths are never both positive,
and if `2*radius ≤ LZMAX` the floor and ceiling depths are never both
positive, so `compute_force` adds at most one contact term per axis; the
hardcoded radius `0.16` satisfies both conditions. -/
theorem opposite_contacts_exclusive :
    (∀ c : body, 2 * c.radius ≤ LX - LXMIN →
      ¬ (c.r.x + c.radius - LX > 0 ∧ LXMIN - (c.r.x - c.radius) > 0))
    ∧ (∀ c : body, 2 * c.radius ≤ LZMAX →
      ¬ (c.radius - c.r.z > 0 ∧ c.r.z + c.radius - LZMAX > 0))
    ∧ (∀ c : body, 2 * c.radius ≤ LX - LXMIN →
      (compute_force [c]).map (fun c => c.f.x) = [0]
      ∨ (compute_force [c]).map (fun c => c.f.x)
          = [-K * (c.r.x + c.radius - LX) - B * c.mass * c.v.x]
      ∨ (compute_force [c]).map (fun c => c.f.x)
          = [K * (LXMIN - (c.r.x - c.radius)) - B * c.mass * c.v.x])
    ∧ (∀ c : body, 2 * c.radius ≤ LZMAX →
      (compute_force [c]).map (fun c => c.f.z) = [-c.mass * G]
      ∨ (compute_force [c]).map (fun c => c.f.z)
          = [-c.mass * G + (K * (c.radius - c.r.z) - B * c.mass * c.v.z)]
      ∨ (compute_force [c]).map (fun c => c.f.z)
          = [-c.mass * G + (-K * (c.r.z + c.radius - LZMAX) - B * c.mass * c.v.z)])
    ∧ 2 * (0.16 : ℚ) ≤ LX - LXMIN ∧ 2 * (0.16 : ℚ) ≤ LZMAX := by
  refine ⟨?_, ?_, ?_, ?_, by norm_num [LX, LXMIN], by norm_num [LZMAX]⟩
  · rintro c h ⟨h1, h2⟩
    linarith
  · rintro c h ⟨h1, h2⟩
    linarith
  · intro c h
    simp only [compute_force_eq_map, List.map_cons, List.map_nil, compute_force_body_eq,
      force_x, List.cons.injEq, and_true]
    by_cases h1 : c.r.x + c.radius - LX > 0
    · have h2 : ¬ (LXMIN - (c.r.x - c.radius) > 0) := by intro h2; linarith
      simp only [h1, h2, if_true, if_false, add_zero]
      exact Or.inr (Or.inl trivial)
    · by_cases h2 : LXMIN - (c.r.x - c.radius) > 0
      · simp only [h1, h2, if_true, if_false, zero_add]
        exact Or.inr (Or.inr trivial)
      · simp only [h1, h2, if_false, add_zero]
        exact Or.inl trivial
  · intro c h
    simp only [compute_force_eq_map, List.map_cons, List.map_nil, compute_force_body_eq,
      force_z, List.cons.injEq, and_true]
    by_cases h1 : c.radius - c.r.z > 0
    · have h2 : ¬ (c.r.z + c.radius - LZMAX > 0) := by intro h2; linarith
      simp only [h1, h2, if_true, if_false, add_zero]
      exact Or.inr (Or.inl trivial)
    · by_cases h2 : c.r.z + c.radius - LZMAX > 0
      · simp only [h1, h2, if_true, if_false, add_zero]
        exact Or.inr (Or.inr trivial)
      · simp only [h1, h2, if_false, add_zero]
        exact Or.inl trivial

/-- Witness of C17: the hardcoded body moved into the right wall and into the
ceiling has no left-wall and no floor contact. -/
theorem opposite_contacts_exclusive_witness :
    ¬ ((3.1 : ℚ) + 0.16 - LX > 0 ∧ LXMIN - ((3.1 : ℚ) - 0.16) > 0)
    ∧ ¬ ((0.16 : ℚ) - 10.2 > 0 ∧ (10.2 : ℚ) + 0.16 - LZMAX > 0) :=
  ⟨opposite_contacts_exclusive.1 ⟨1.23, 0.16, ⟨3.1, 0, 10.2⟩, ⟨0.87, 0, 1.32⟩, ⟨0, 0, 0⟩⟩
      (by norm_num [LX, LXMIN]),
   opposite_contacts_exclusive.2.1 ⟨1.23, 0.16, ⟨3.1, 0, 10.2⟩, ⟨0.87, 0, 1.32⟩, ⟨0, 0, 0⟩⟩
      (by norm_num [LZMAX])⟩

/-! ## Binary64: rounding breaks the exact free flight -/

set_option maxRecDepth 100000 in
/-- Counterexample to C4 as stated, on the binary64 code.  Run from
`r_z = 0.34` with `v_z = -0.9`, `dt = 0.01`: the 21
positions `r0 + j*dt*v0`, `j < 21`, are inside all boundaries, yet after 21
iterations the velocity is no longer `v0`, because the position the code has
accumulated after 20 steps lies below the radius and the floor term fires. -/
theorem straight_line_rounding_counterexample :
    F64.compute_force [⟨rn 1.23, rn 0.16, ⟨0, 0, rn 0.34⟩, ⟨0, 0, -rn 0.9⟩, ⟨0, 0, 0⟩⟩]
      = some [⟨rn 1.23, rn 0.16, ⟨0, 0, rn 0.34⟩, ⟨0, 0, -rn 0.9⟩, ⟨0, 0, 0⟩⟩]
    ∧ rn 1.23 ≠ 0
    ∧ (∀ j : ℕ, j < 21 →
        rn 0.16 - (rn 0.34 + (j : ℚ) * rn 0.01 * -rn 0.9) ≤ 0
        ∧ (rn 0.34 + (j : ℚ) * rn 0.01 * -rn 0.9) + rn 0.16 - F64.LZMAX ≤ 0
        ∧ ((0 : ℚ) + (j : ℚ) * rn 0.01 * 0) + rn 0.16 - F64.LX ≤ 0
        ∧ F64.LXMIN - (((0 : ℚ) + (j : ℚ) * rn 0.01 * 0) - rn 0.16) ≤ 0)
    ∧ F64.loop_iterate (rn 0.01) 21
        [⟨rn 1.23, rn 0.16, ⟨0, 0, rn 0.34⟩, ⟨0, 0, -rn 0.9⟩, ⟨0, 0, 0⟩⟩]
      = some [⟨rn 1.23, rn 0.16, ⟨0, 0, 2721633341211045 / 18014398509481984⟩,
          ⟨0, 0, -125523765864117 / 140737488355328⟩,
          ⟨0, 0, 4364210291563675 / 1125899906842624⟩⟩]
    ∧ (-125523765864117 / 140737488355328 : ℚ) ≠ -rn 0.9
    ∧ (2721633341211045 / 18014398509481984 : ℚ) ≠ rn 0.34 + (21 : ℕ) * rn 0.01 * -rn 0.9 := by
  decide!

/-! ## Binary64: elementary facts about rounding -/

theorem rn_zero : rn 0 = 0 := by
  simp [rn]

theorem max_finite_nonneg : (0 : ℚ) ≤ max_finite := by
  norm_num [max_finite]

theorem fl_zero : fl 0 = some 0 := by
  simp [fl, rn_zero, max_finite_nonneg]

theorem rn_neg (q : ℚ) : rn (-q) = -rn q := by
  unfold rn
  by_cases h0 : q = 0
  · simp [h0]
  · rcases lt_or_gt_of_ne h0 with h | h
    · have h1 : ¬ (-q = 0) := by simpa using h0
      have h2 : 0 < -q := by linarith
      have h3 : ¬ (0 < q) := by linarith
      simp [h0, h1, h2, h3]
    · have h1 : ¬ (-q = 0) := by simpa using h0
      have h2 : ¬ (0 < -q) := by linarith
      simp [h0, h1, h2, h]

theorem fl_neg (q : ℚ) : fl (-q) = (fl q).map (fun y => -y) := by
  unfold fl
  rw [rn_neg, abs_neg]
  split_ifs <;> rfl

theorem F64_G_eq_zero : F64.G = 0 := by
  have h : (0.0 : ℚ) = 0 := by norm_num
  rw [F64.G, h, rn_zero]

theorem fmul_zero_right (a : ℚ) : fmul a 0 = some 0 := by
  rw [fmul, mul_zero, fl_zero]

theorem fdiv_zero_left (b : ℚ) (hb : b ≠ 0) : fdiv 0 b = some 0 := by
  rw [fdiv, if_neg hb, zero_div, fl_zero]

theorem fadd_zero_right (a : ℚ) (ha : is_double a) : fadd a 0 = some a := by
  rw [fadd, add_zero]; exact ha

/-! ## Binary64: the force evaluator away from the boundaries -/

theorem F64_compute_force_no_contact (c : body) (h : F64.no_contact c) :
    F64.compute_force [c] = some [{ c with f := ⟨0, 0, 0⟩ }] := by
  obtain ⟨⟨d1, h1, hd1⟩, ⟨d2, h2, hd2⟩, ⟨d3, h3, hd3⟩, ⟨d4, h4, hd4⟩⟩ := h
  have z : (0.0 : ℚ) = 0 := by norm_num
  have g : F64.add_gravity (reset_force c) = some { c with f := ⟨0, 0, 0⟩ } := by
    simp [F64.add_gravity, reset_force, F64_G_eq_zero, fmul_zero_right, fsub, fl_zero, z]
  have a1 : F64.add_floor { c with f := ⟨0, 0, 0⟩ } = some { c with f := ⟨0, 0, 0⟩ } := by
    have : F64.delta_floor { c with f := ⟨0, 0, 0⟩ } = some d1 := h1
    simp [F64.add_floor, this, not_lt.mpr hd1]
  have a2 : F64.add_right_wall { c with f := ⟨0, 0, 0⟩ } = some { c with f := ⟨0, 0, 0⟩ } := by
    have : F64.delta_right { c with f := ⟨0, 0, 0⟩ } = some d3 := h3
    simp [F64.add_right_wall, this, not_lt.mpr hd3]
  have a3 : F64.add_left_wall { c with f := ⟨0, 0, 0⟩ } = some { c with f := ⟨0, 0, 0⟩ } := by
    have : F64.delta_left { c with f := ⟨0, 0, 0⟩ } = some d4 := h4
    simp [F64.add_left_wall, this, not_lt.mpr hd4]
  have a4 : F64.add_upper { c with f := ⟨0, 0, 0⟩ } = some { c with f := ⟨0, 0, 0⟩ } := by
    have : F64.delta_upper { c with f := ⟨0, 0, 0⟩ } = some d2 := h2
    simp [F64.add_upper, this, not_lt.mpr hd2]
  simp [F64.compute_force, F64.for_each, F64.add_forces, g, a1, a2, a3, a4]

theorem F64_advance_eq (dt : ℚ) (v r p : Vec3) (hp : F64.advance dt v r = some p) :
    ∃ tx ty tz, fmul v.x dt = some tx ∧ fadd r.x tx = some p.x ∧
      fmul v.y dt = some ty ∧ fadd r.y ty = some p.y ∧
      fmul v.z dt = some tz ∧ fadd r.z tz = some p.z := by
  unfold F64.advance at hp
  cases hx : fmul v.x dt with
  | none => simp [hx] at hp
  | some tx =>
    cases hx2 : fadd r.x tx with
    | none => simp [hx, hx2] at hp
    | some x =>
      cases hy : fmul v.y dt with
      | none => simp [hx, hx2, hy] at hp
      | some ty =>
        cases hy2 : fadd r.y ty with
        | none => simp [hx, hx2, hy, hy2] at hp
        | some y =>
          cases hz : fmul v.z dt with
          | none => simp [hx, hx2, hy, hy2, hz] at hp
          | some tz =>
            cases hz2 : fadd r.z tz with
            | none => simp [hx, hx2, hy, hy2, hz, hz2] at hp
            | some z =>
              simp [hx, hx2, hy, hy2, hz, hz2] at hp
              subst hp
              exact ⟨tx, ty, tz, rfl, hx2, rfl, hy2, rfl, hz2⟩

/-- One call of `timestep` on a body with zero force moves it by one rounded
step and keeps its velocity. -/
theorem F64_timestep_free (dt : ℚ) (c : body) (p : Vec3)
    (hf : c.f = ⟨0, 0, 0⟩) (hm : c.mass ≠ 0)
    (hv : is_double c.v.x ∧ is_double c.v.y ∧ is_double c.v.z)
    (hp : F64.advance dt c.v c.r = some p) :
    F64.timestep [c] dt = some [{ c with r := p }] := by
  obtain ⟨tx, ty, tz, hx, hx2, hy, hy2, hz, hz2⟩ := F64_advance_eq dt c.v c.r p hp
  obtain ⟨vx, vy, vz⟩ := hv
  have e0 : F64.timestep_axis dt c 0 = some { c with r := ⟨p.x, c.r.y, c.r.z⟩ } := by
    simp [F64.timestep_axis, Vec3.get, Vec3.set, hf, fmul_zero_right, fdiv_zero_left _ hm,
      fadd_zero_right _ vx, hx, hx2]
  have e1 : F64.timestep_axis dt { c with r := ⟨p.x, c.r.y, c.r.z⟩ } 1
      = some { c with r := ⟨p.x, p.y, c.r.z⟩ } := by
    simp [F64.timestep_axis, Vec3.get, Vec3.set, hf, fmul_zero_right, fdiv_zero_left _ hm,
      fadd_zero_right _ vy, hy, hy2]
  have e2 : F64.timestep_axis dt { c with r := ⟨p.x, p.y, c.r.z⟩ } 2
      = some { c with r := p } := by
    simp [F64.timestep_axis, Vec3.get, Vec3.set, hf, fmul_zero_right, fdiv_zero_left _ hm,
      fadd_zero_right _ vz, hz, hz2]
  simp [F64.timestep, F64.for_each, F64.timestep_body, axes, List.foldlM, e0, e1, e2]

/-! ## Binary64: the force evaluator writes nothing but the force -/

theorem F64_add_gravity_frame (c c' : body) (h : F64.add_gravity c = some c') :
    c' = { c with f := c'.f } := by
  simp only [F64.add_gravity, Option.bind_eq_bind, Option.bind_eq_some, Option.pure_def,
    Option.some.injEq] at h
  obtain ⟨_, _, _, _, rfl⟩ := h
  rfl

theorem F64_add_floor_frame (c c' : body) (h : F64.add_floor c = some c') :
    c' = { c with f := c'.f } := by
  simp only [F64.add_floor, Option.bind_eq_bind, Option.bind_eq_some, Option.pure_def] at h
  obtain ⟨d, _, h⟩ := h
  split_ifs at h
  · simp only [Option.bind_eq_some, Option.some.injEq] at h
    obtain ⟨_, _, _, _, rfl⟩ := h
    rfl
  · obtain rfl := Option.some.inj h
    rfl

theorem F64_add_right_wall_frame (c c' : body) (h : F64.add_right_wall c = some c') :
    c' = { c with f := c'.f } := by
  simp only [F64.add_right_wall, Option.bind_eq_bind, Option.bind_eq_some,
    Option.pure_def] at h
  obtain ⟨d, _, h⟩ := h
  split_ifs at h
  · simp only [Option.bind_eq_some, Option.some.injEq] at h
    obtain ⟨_, _, _, _, rfl⟩ := h
    rfl
  · obtain rfl := Option.some.inj h
    rfl

theorem F64_add_left_wall_frame (c c' : body) (h : F64.add_left_wall c = some c') :
    c' = { c with f := c'.f } := by
  simp only [F64.add_left_wall, Option.bind_eq_bind, Option.bind_eq_some,
    Option.pure_def] at h
  obtain ⟨d, _, h⟩ := h
  split_ifs at h
  · simp only [Option.bind_eq_some, Option.some.injEq] at h
    obtain ⟨_, _, _, _, rfl⟩ := h
    rfl
  · obtain rfl := Option.some.inj h
    rfl

theorem F64_add_upper_frame (c c' : body) (h : F64.add_upper c = some c') :
    c' = { c with f := c'.f } := by
  simp only [F64.add_upper, Option.bind_eq_bind, Option.bind_eq_some, Option.pure_def] at h
  obtain ⟨d, _, h⟩ := h
  split_ifs at h
  · simp only [Option.bind_eq_some, Option.some.injEq] at h
    obtain ⟨_, _, _, _, rfl⟩ := h
    rfl
  · obtain rfl := Option.some.inj h
    rfl

theorem F64_for_each_single (g : body → Option body) (c : body) :
    F64.for_each g [c] = (g c).map (fun c1 => [c1]) := by
  cases h : g c <;> simp [F64.for_each, h]

theorem F64_compute_force_frame (c c' : body) (h : F64.compute_force [c] = some [c']) :
    c' = { c with f := c'.f } := by
  rw [F64.compute_force, List.map_cons, List.map_nil, F64_for_each_single] at h
  simp only [Option.map_eq_some', List.cons.injEq, and_true, exists_eq_right] at h
  simp only [F64.add_forces, Option.bind_eq_bind, Option.bind_eq_some] at h
  obtain ⟨c1, h1, c2, h2, c3, h3, c4, h4, h5⟩ := h
  have e1 := F64_add_gravity_frame _ _ h1
  have e2 := F64_add_floor_frame _ _ h2
  have e3 := F64_add_right_wall_frame _ _ h3
  have e4 := F64_add_left_wall_frame _ _ h4
  have e5 := F64_add_upper_frame _ _ h5
  rw [e5, e4, e3, e2, e1]
  rfl

theorem F64_compute_force_stale (c : body) (g : Vec3) :
    F64.compute_force [{ c with f := g }] = F64.compute_force [c] := rfl

/-- A state produced by `compute_force` is reproduced by a second call. -/
theorem F64_compute_force_fixed (c0 c : body) (h : F64.compute_force [c0] = some [c]) :
    F64.compute_force [c] = some [c] := by
  have e := F64_compute_force_frame c0 c h
  rw [e, F64_compute_force_stale]
  rw [← e]
  exact h

/-! ## Binary64: free flight along the positions the code computes -/

theorem F64_free_position_succ (dt : ℚ) (v r r1 : Vec3) (j : Nat)
    (h : F64.advance dt v r = some r1) :
    F64.free_position dt v (j + 1) r = F64.free_position dt v j r1 := by
  simp [F64.free_position, h]

theorem F64_loop_free (dt : ℚ) (n : Nat) :
    ∀ (c cn : body) (p : Vec3), F64.compute_force [c] = some [c] → c.mass ≠ 0 →
      (is_double c.v.x ∧ is_double c.v.y ∧ is_double c.v.z) →
      (∀ j < n, ∃ pj ∈ F64.free_position dt c.v j c.r, F64.no_contact { c with r := pj }) →
      F64.free_position dt c.v n c.r = some p →
      F64.compute_force [{ c with r := p }] = some [cn] →
      F64.loop_iterate dt n [c] = some [cn] := by
  induction n with
  | zero =>
    intro c cn p hfix _ _ _ hp hfin
    obtain rfl : c.r = p := by simpa [F64.free_position] using hp
    have h : F64.compute_force [c] = some [cn] := hfin
    rw [hfix] at h
    rw [F64.loop_iterate, h]
  | succ m ih =>
    intro c cn p hfix hm hv hin hp hfin
    -- the body is not in contact now, so its force is zero
    obtain ⟨p0, hp0, hc0⟩ := hin 0 (Nat.succ_pos m)
    obtain rfl : c.r = p0 := by simpa [F64.free_position] using hp0
    have hzero := F64_compute_force_no_contact c hc0
    rw [hfix] at hzero
    have hf : c.f = ⟨0, 0, 0⟩ := by
      have := congrArg body.f (List.head_eq_of_cons_eq (Option.some.inj hzero))
      exact this
    -- first step
    have hadv : ∃ r1, F64.advance dt c.v c.r = some r1
        ∧ F64.free_position dt c.v m r1 = some p := by
      cases ha : F64.advance dt c.v c.r with
      | none => simp [F64.free_position, ha] at hp
      | some r1 => exact ⟨r1, rfl, by rw [← F64_free_position_succ dt c.v c.r r1 m ha]; exact hp⟩
    obtain ⟨r1, ha, hp1⟩ := hadv
    have hts := F64_timestep_free dt c r1 hf hm hv ha
    cases m with
    | zero =>
      obtain rfl : r1 = p := by simpa [F64.free_position] using hp1
      simp [F64.loop_iterate, hts, hfin]
    | succ k =>
      obtain ⟨p1, hp1', hc1⟩ := hin 1 (by omega)
      have e1 : F64.free_position dt c.v 1 c.r = some r1 := by
        rw [F64_free_position_succ dt c.v c.r r1 0 ha]; rfl
      obtain rfl : r1 = p1 := by rw [Option.mem_def, e1] at hp1'; exact Option.some.inj hp1'
      have hfix1 : F64.compute_force [{ c with r := r1 }] = some [{ c with r := r1 }] := by
        have := F64_compute_force_no_contact { c with r := r1 } hc1
        rw [this, ← hf]
      have hrec := ih { c with r := r1 } cn p hfix1 hm hv
        (fun j hj => by
          obtain ⟨pj, hpj, hcj⟩ := hin (j + 1) (by omega)
          rw [Option.mem_def, F64_free_position_succ dt c.v c.r r1 j ha] at hpj
          exact ⟨pj, hpj, hcj⟩)
        hp1 hfin
      simp only [F64.loop_iterate, hts, Option.bind_eq_bind, Option.some_bind, hfix1] at hrec ⊢
      exact hrec

/-- C4 (amended): straight-line motion on the binary64 code.  Let `c` be a body
of a state produced by `compute_force`, of non-zero mass and with a binary64
velocity, let `p_0 = r0`, `p_(j+1) = p_j + v0*dt` be the positions as the code
rounds them, and let the depths the code computes at `p_j` be non-positive for
every `j < n`.  Then `n` iterations of `timestep(dt)` followed by
`compute_force` keep the velocity exactly `v0` and put the body at `p_n`. -/
theorem straight_line_motion_rounded (c0 c cn : body) (dt : ℚ) (n : Nat) (p : Vec3)
    (hc : F64.compute_force [c0] = some [c]) (hm : c.mass ≠ 0)
    (hv : is_double c.v.x ∧ is_double c.v.y ∧ is_double c.v.z)
    (hin : ∀ j < n, ∃ pj ∈ F64.free_position dt c.v j c.r, F64.no_contact { c with r := pj })
    (hp : F64.free_position dt c.v n c.r = some p)
    (hfin : F64.compute_force [{ c with r := p }] = some [cn]) :
    F64.loop_iterate dt n [c] = some [cn]
      ∧ cn.v = c.v ∧ cn.r = p ∧ cn.mass = c.mass ∧ cn.radius = c.radius := by
  have hfix := F64_compute_force_fixed c0 c hc
  have hframe := F64_compute_force_frame _ _ hfin
  refine ⟨F64_loop_free dt n c cn p hfix hm hv hin hp hfin, ?_, ?_, ?_, ?_⟩
  · rw [hframe]
  · rw [hframe]
  · rw [hframe]
  · rw [hframe]

set_option maxRecDepth 100000 in
/-- Witness of C4 (amended): two free steps of the hardcoded body. -/
theorem straight_line_motion_rounded_witness :
    F64.loop_iterate (rn 0.01) 2
        [⟨rn 1.23, rn 0.16, ⟨0, 0, rn 7.86⟩, ⟨rn 0.87, 0, rn 1.32⟩, ⟨0, 0, 0⟩⟩]
      = some [⟨rn 1.23, rn 0.16,
          ⟨626901068129973 / 36028797018963968, 0, 8879297025323671 / 1125899906842624⟩,
          ⟨rn 0.87, 0, rn 1.32⟩, ⟨0, 0, 0⟩⟩]
    ∧ (⟨rn 0.87, 0, rn 1.32⟩ : Vec3) = ⟨rn 0.87, 0, rn 1.32⟩
    ∧ (⟨626901068129973 / 36028797018963968, 0, 8879297025323671 / 1125899906842624⟩ : Vec3)
        = ⟨626901068129973 / 36028797018963968, 0, 8879297025323671 / 1125899906842624⟩
    ∧ rn 1.23 = rn 1.23 ∧ rn 0.16 = rn 0.16 :=
  straight_line_motion_rounded
    ⟨rn 1.23, rn 0.16, ⟨0, 0, rn 7.86⟩, ⟨rn 0.87, 0, rn 1.32⟩, ⟨5, 6, 7⟩⟩
    ⟨rn 1.23, rn 0.16, ⟨0, 0, rn 7.86⟩, ⟨rn 0.87, 0, rn 1.32⟩, ⟨0, 0, 0⟩⟩
    ⟨rn 1.23, rn 0.16,
      ⟨626901068129973 / 36028797018963968, 0, 8879297025323671 / 1125899906842624⟩,
      ⟨rn 0.87, 0, rn 1.32⟩, ⟨0, 0, 0⟩⟩
    (rn 0.01) 2
    ⟨626901068129973 / 36028797018963968, 0, 8879297025323671 / 1125899906842624⟩
    (by decide!) (by decide!) (by decide!) (by decide!) (by decide!) (by decide!)

/-! ## Binary64: rounding is idempotent -/

theorem log2_fuel_spec (fuel : Nat) : ∀ n : Nat, n ≤ fuel → 0 < n →
    2 ^ log2_fuel fuel n ≤ n ∧ n < 2 ^ (log2_fuel fuel n + 1) := by
  induction fuel with
  | zero => intro n h1 h2; omega
  | succ k ih =>
    intro n h1 h2
    unfold log2_fuel
    by_cases h : n < 2
    · have : n = 1 := by omega
      subst this
      simp
    · rw [if_neg h]
      have hle : n / 2 ≤ k := by omega
      have hpos : 0 < n / 2 := by omega
      obtain ⟨a, b⟩ := ih (n / 2) hle hpos
      constructor
      · rw [pow_succ]; omega
      · rw [pow_succ]; omega

theorem log2_spec (n : Nat) (hn : 0 < n) : 2 ^ log2 n ≤ n ∧ n < 2 ^ (log2 n + 1) :=
  log2_fuel_spec n n le_rfl hn

theorem two_zpow_toNat (e : Int) (he : 0 ≤ e) : ((2 ^ e.toNat : ℕ) : ℚ) = (2 : ℚ) ^ e := by
  have h : ((e.toNat : ℕ) : ℤ) = e := Int.toNat_of_nonneg he
  rw [Nat.cast_pow, Nat.cast_ofNat, ← zpow_natCast, h]

theorem two_zpow_neg_toNat (e : Int) (he : e < 0) :
    ((2 ^ (-e).toNat : ℕ) : ℚ) = ((2 : ℚ) ^ e)⁻¹ := by
  rw [two_zpow_toNat (-e) (by omega), zpow_neg]

theorem two_zpow_pos (e : Int) : (0 : ℚ) < (2 : ℚ) ^ e := zpow_pos (by norm_num) e

theorem pow2_le_spec (e : Int) (n d : Nat) (hd : 0 < d) :
    pow2_le e n d = true ↔ (2 : ℚ) ^ e ≤ (n : ℚ) / d := by
  have hdq : (0 : ℚ) < d := by exact_mod_cast hd
  unfold pow2_le
  by_cases he : 0 ≤ e
  · rw [if_pos he, decide_eq_true_eq, le_div_iff₀ hdq, ← two_zpow_toNat e he]
    exact_mod_cast Iff.rfl
  · rw [if_neg he, decide_eq_true_eq, le_div_iff₀ hdq]
    have h2 := two_zpow_neg_toNat e (by omega)
    have hpos := two_zpow_pos e
    constructor
    · intro h
      have hq : (d : ℚ) ≤ (n : ℚ) * ((2 ^ (-e).toNat : ℕ) : ℚ) := by exact_mod_cast h
      rw [h2] at hq
      calc (2 : ℚ) ^ e * d ≤ (2 : ℚ) ^ e * (n * ((2 : ℚ) ^ e)⁻¹) :=
            mul_le_mul_of_nonneg_left hq hpos.le
        _ = n := by field_simp
    · intro h
      have hq : (d : ℚ) ≤ (n : ℚ) * ((2 ^ (-e).toNat : ℕ) : ℚ) := by
        rw [h2]
        calc (d : ℚ) = ((2 : ℚ) ^ e * d) * ((2 : ℚ) ^ e)⁻¹ := by field_simp
          _ ≤ n * ((2 : ℚ) ^ e)⁻¹ := mul_le_mul_of_nonneg_right h (inv_pos.mpr hpos).le
      exact_mod_cast hq

theorem ilog2_spec (n d : Nat) (hn : 0 < n) (hd : 0 < d) :
    (2 : ℚ) ^ ilog2 n d ≤ (n : ℚ) / d ∧ (n : ℚ) / d < (2 : ℚ) ^ (ilog2 n d + 1) := by
  have hdq : (0 : ℚ) < d := by exact_mod_cast hd
  obtain ⟨na, nb⟩ := log2_spec n hn
  obtain ⟨da, db⟩ := log2_spec d hd
  have naq : (2 : ℚ) ^ (log2 n : ℤ) ≤ n := by
    rw [zpow_natCast]; exact_mod_cast na
  have nbq : (n : ℚ) < (2 : ℚ) ^ ((log2 n : ℤ) + 1) := by
    have : ((log2 n : ℤ) + 1) = ((log2 n + 1 : ℕ) : ℤ) := by push_cast; ring
    rw [this, zpow_natCast]; exact_mod_cast nb
  have daq : (2 : ℚ) ^ (log2 d : ℤ) ≤ d := by
    rw [zpow_natCast]; exact_mod_cast da
  have dbq : (d : ℚ) < (2 : ℚ) ^ ((log2 d : ℤ) + 1) := by
    have : ((log2 d : ℤ) + 1) = ((log2 d + 1 : ℕ) : ℤ) := by push_cast; ring
    rw [this, zpow_natCast]; exact_mod_cast db
  have h2 : (2 : ℚ) ≠ 0 := by norm_num
  unfold ilog2
  by_cases h : pow2_le ((log2 n : ℤ) - (log2 d : ℤ)) n d = true
  · rw [if_pos h]
    refine ⟨(pow2_le_spec _ n d hd).mp h, ?_⟩
    rw [div_lt_iff₀ hdq]
    calc (n : ℚ) < (2 : ℚ) ^ ((log2 n : ℤ) + 1) := nbq
      _ = (2 : ℚ) ^ ((log2 n : ℤ) - (log2 d : ℤ) + 1) * (2 : ℚ) ^ (log2 d : ℤ) := by
          rw [← zpow_add₀ h2]; congr 1; ring
      _ ≤ (2 : ℚ) ^ ((log2 n : ℤ) - (log2 d : ℤ) + 1) * d :=
          mul_le_mul_of_nonneg_left daq (two_zpow_pos _).le
  · rw [if_neg h]
    have hlt : (n : ℚ) / d < (2 : ℚ) ^ ((log2 n : ℤ) - (log2 d : ℤ)) := by
      by_contra hc
      exact h ((pow2_le_spec _ n d hd).mpr (not_lt.mp hc))
    refine ⟨?_, by rw [sub_add_cancel]; exact hlt⟩
    rw [le_div_iff₀ hdq]
    calc (2 : ℚ) ^ ((log2 n : ℤ) - (log2 d : ℤ) - 1) * d
        ≤ (2 : ℚ) ^ ((log2 n : ℤ) - (log2 d : ℤ) - 1) * (2 : ℚ) ^ ((log2 d : ℤ) + 1) :=
          mul_le_mul_of_nonneg_left dbq.le (two_zpow_pos _).le
      _ = (2 : ℚ) ^ (log2 n : ℤ) := by
          rw [← zpow_add₀ h2]; congr 1; ring
      _ ≤ n := naq

theorem two_zpow_unique (q : ℚ) (e e' : ℤ)
    (h1 : (2 : ℚ) ^ e ≤ q) (h2 : q < (2 : ℚ) ^ (e + 1))
    (h1' : (2 : ℚ) ^ e' ≤ q) (h2' : q < (2 : ℚ) ^ (e' + 1)) : e = e' := by
  have a : e < e' + 1 :=
    (zpow_lt_zpow_iff_right₀ (by norm_num : (1 : ℚ) < 2)).mp (lt_of_le_of_lt h1 h2')
  have b : e' < e + 1 :=
    (zpow_lt_zpow_iff_right₀ (by norm_num : (1 : ℚ) < 2)).mp (lt_of_le_of_lt h1' h2)
  omega

theorem ilog2_eq (n d : Nat) (hn : 0 < n) (hd : 0 < d) (e : ℤ)
    (h1 : (2 : ℚ) ^ e ≤ (n : ℚ) / d) (h2 : (n : ℚ) / d < (2 : ℚ) ^ (e + 1)) :
    ilog2 n d = e := by
  obtain ⟨a, b⟩ := ilog2_spec n d hn hd
  exact two_zpow_unique _ _ _ a b h1 h2

theorem round_half_even_exact (k d : Nat) (hd : 0 < d) : round_half_even (k * d) d = k := by
  unfold round_half_even
  have h1 : k * d % d = 0 := Nat.mul_mod_left k d
  have h2 : k * d / d = k := Nat.mul_div_cancel k hd
  simp [h1, h2, hd]

theorem round_half_even_ge (n d a : Nat) (hd : 0 < d) (h : a * d ≤ n) :
    a ≤ round_half_even n d := by
  have hq : a ≤ n / d := (Nat.le_div_iff_mul_le hd).mpr h
  unfold round_half_even
  split_ifs <;> omega

theorem round_half_even_le (n d b : Nat) (hd : 0 < d) (h : n ≤ b * d) :
    round_half_even n d ≤ b := by
  have hq : n / d ≤ b := by
    calc n / d ≤ b * d / d := Nat.div_le_div_right h
      _ = b := Nat.mul_div_cancel b hd
  have hmod := Nat.mod_add_div n d
  have hlt := Nat.mod_lt n hd
  by_cases hb : n / d = b
  · have h0 : n % d = 0 := by
      have : d * (n / d) = b * d := by rw [hb, Nat.mul_comm]
      omega
    unfold round_half_even
    simp [h0, hd, hb]
  · have : n / d < b := lt_of_le_of_ne hq hb
    unfold round_half_even
    split_ifs <;> omega

theorem round_pos_of_ulp (n d M : Nat) (t : ℤ) (hd : 0 < d)
    (hu : ulp_exp (ilog2 n d) = t) (hval : (n : ℚ) / d = M * (2 : ℚ) ^ t) :
    round_pos n d = M * (2 : ℚ) ^ t := by
  have hdq : (0 : ℚ) < d := by exact_mod_cast hd
  unfold round_pos
  rw [hu]
  by_cases ht : 0 ≤ t
  · rw [if_pos ht]
    have hp := two_zpow_toNat t ht
    have hn : n = M * (d * 2 ^ t.toNat) := by
      have : (n : ℚ) = M * ((d : ℚ) * ((2 ^ t.toNat : ℕ) : ℚ)) := by
        rw [hp]
        have := (div_eq_iff hdq.ne').mp hval
        rw [this]; ring
      exact_mod_cast this
    have hpos : 0 < d * 2 ^ t.toNat := Nat.mul_pos hd (pow_pos (by norm_num) _)
    rw [hn, round_half_even_exact M _ hpos, Nat.cast_mul, hp]
  · rw [if_neg ht]
    have hp := two_zpow_neg_toNat t (by omega)
    have h2 := two_zpow_pos t
    have hn : n * 2 ^ (-t).toNat = M * d := by
      have : (n : ℚ) * ((2 ^ (-t).toNat : ℕ) : ℚ) = M * d := by
        rw [hp]
        have := (div_eq_iff hdq.ne').mp hval
        rw [this]; field_simp; ring
      exact_mod_cast this
    rw [hn, round_half_even_exact M d hd, hp]
    field_simp


theorem ulp_of_canonical (n d M : Nat) (t : ℤ) (hn : 0 < n) (hd : 0 < d)
    (hc : canonical M t) (hval : (n : ℚ) / d = M * (2 : ℚ) ^ t) :
    ulp_exp (ilog2 n d) = t := by
  have h2 : (2 : ℚ) ≠ 0 := by norm_num
  have hp := two_zpow_pos t
  rcases hc with ⟨a, b, c⟩ | ⟨a, b, c⟩
  · have e : ilog2 n d = 52 + t := by
      apply ilog2_eq n d hn hd
      · rw [hval, zpow_add₀ h2]
        have : ((2 : ℚ) ^ (52 : ℤ)) ≤ M := by
          have : ((2 ^ 52 : ℕ) : ℚ) ≤ M := by exact_mod_cast a
          norm_num at this ⊢
          exact this
        exact mul_le_mul_of_nonneg_right this hp.le
      · rw [hval, show (52 + t + 1 : ℤ) = 53 + t by ring, zpow_add₀ h2]
        have : (M : ℚ) < ((2 : ℚ) ^ (53 : ℤ)) := by
          have : (M : ℚ) < ((2 ^ 53 : ℕ) : ℚ) := by exact_mod_cast b
          norm_num at this ⊢
          exact this
        exact mul_lt_mul_of_pos_right this hp
    rw [e, ulp_exp]
    omega
  · obtain ⟨s1, s2⟩ := ilog2_spec n d hn hd
    have hlt : (n : ℚ) / d < (2 : ℚ) ^ (-1022 : ℤ) := by
      rw [hval, c, show (-1022 : ℤ) = 52 + -1074 by norm_num, zpow_add₀ h2]
      have : (M : ℚ) < ((2 : ℚ) ^ (52 : ℤ)) := by
        have : (M : ℚ) < ((2 ^ 52 : ℕ) : ℚ) := by exact_mod_cast b
        norm_num at this ⊢
        exact this
      exact mul_lt_mul_of_pos_right this (two_zpow_pos _)
    have he : ilog2 n d < -1022 :=
      (zpow_lt_zpow_iff_right₀ (by norm_num : (1 : ℚ) < 2)).mp (lt_of_le_of_lt s1 hlt)
    rw [ulp_exp, c]
    omega

theorem round_pos_canonical (n d M : Nat) (t : ℤ) (hn : 0 < n) (hd : 0 < d)
    (hc : canonical M t) (hval : (n : ℚ) / d = M * (2 : ℚ) ^ t) :
    round_pos n d = M * (2 : ℚ) ^ t :=
  round_pos_of_ulp n d M t hd (ulp_of_canonical n d M t hn hd hc hval) hval

theorem round_pos_bounds (n d a b : Nat) (hd : 0 < d)
    (ha : (a : ℚ) * (2 : ℚ) ^ ulp_exp (ilog2 n d) ≤ (n : ℚ) / d)
    (hb : (n : ℚ) / d ≤ (b : ℚ) * (2 : ℚ) ^ ulp_exp (ilog2 n d)) :
    ∃ R : ℕ, a ≤ R ∧ R ≤ b ∧ round_pos n d = R * (2 : ℚ) ^ ulp_exp (ilog2 n d) := by
  have hdq : (0 : ℚ) < d := by exact_mod_cast hd
  rw [le_div_iff₀ hdq] at ha
  rw [div_le_iff₀ hdq] at hb
  unfold round_pos
  by_cases ht : 0 ≤ ulp_exp (ilog2 n d)
  · rw [if_pos ht]
    have hp := two_zpow_toNat _ ht
    have hpos : 0 < d * 2 ^ (ulp_exp (ilog2 n d)).toNat :=
      Nat.mul_pos hd (pow_pos (by norm_num) _)
    refine ⟨round_half_even n (d * 2 ^ (ulp_exp (ilog2 n d)).toNat), ?_, ?_, ?_⟩
    · apply round_half_even_ge _ _ _ hpos
      rw [← hp] at ha
      have : ((a * (d * 2 ^ (ulp_exp (ilog2 n d)).toNat) : ℕ) : ℚ) ≤ n := by
        push_cast at ha ⊢
        linarith
      exact_mod_cast this
    · apply round_half_even_le _ _ _ hpos
      rw [← hp] at hb
      have : (n : ℚ) ≤ ((b * (d * 2 ^ (ulp_exp (ilog2 n d)).toNat) : ℕ) : ℚ) := by
        push_cast at hb ⊢
        linarith
      exact_mod_cast this
    · rw [Nat.cast_mul, hp]
  · rw [if_neg ht]
    have hp := two_zpow_neg_toNat _ (not_le.mp ht)
    have h2 := two_zpow_pos (ulp_exp (ilog2 n d))
    refine ⟨round_half_even (n * 2 ^ (-ulp_exp (ilog2 n d)).toNat) d, ?_, ?_, ?_⟩
    · apply round_half_even_ge _ _ _ hd
      have : ((a * d : ℕ) : ℚ) ≤ ((n * 2 ^ (-ulp_exp (ilog2 n d)).toNat : ℕ) : ℚ) := by
        rw [Nat.cast_mul, Nat.cast_mul, hp, le_mul_inv_iff₀ h2]
        linarith
      exact_mod_cast this
    · apply round_half_even_le _ _ _ hd
      have : ((n * 2 ^ (-ulp_exp (ilog2 n d)).toNat : ℕ) : ℚ) ≤ ((b * d : ℕ) : ℚ) := by
        rw [Nat.cast_mul, Nat.cast_mul, hp, mul_inv_le_iff₀ h2]
        linarith
      exact_mod_cast this
    · rw [hp]
      field_simp

theorem round_pos_form (n d : Nat) (hn : 0 < n) (hd : 0 < d) :
    round_pos n d = 0 ∨ ∃ (M : ℕ) (t : ℤ), canonical M t ∧ round_pos n d = M * (2 : ℚ) ^ t := by
  have h2 : (2 : ℚ) ≠ 0 := by norm_num
  obtain ⟨s1, s2⟩ := ilog2_spec n d hn hd
  by_cases he : -1022 ≤ ilog2 n d
  · have hu : ulp_exp (ilog2 n d) = ilog2 n d - 52 := by rw [ulp_exp]; omega
    have ha : ((2 ^ 52 : ℕ) : ℚ) * (2 : ℚ) ^ ulp_exp (ilog2 n d) ≤ (n : ℚ) / d := by
      have : ((2 ^ 52 : ℕ) : ℚ) = (2 : ℚ) ^ (52 : ℤ) := by norm_num
      rw [this, hu, ← zpow_add₀ h2, show (52 + (ilog2 n d - 52) : ℤ) = ilog2 n d by ring]
      exact s1
    have hb : (n : ℚ) / d ≤ ((2 ^ 53 : ℕ) : ℚ) * (2 : ℚ) ^ ulp_exp (ilog2 n d) := by
      have : ((2 ^ 53 : ℕ) : ℚ) = (2 : ℚ) ^ (53 : ℤ) := by norm_num
      rw [this, hu, ← zpow_add₀ h2, show (53 + (ilog2 n d - 52) : ℤ) = ilog2 n d + 1 by ring]
      exact s2.le
    obtain ⟨R, r1, r2, r3⟩ := round_pos_bounds n d _ _ hd ha hb
    right
    by_cases hR : R < 2 ^ 53
    · exact ⟨R, ulp_exp (ilog2 n d), Or.inl ⟨r1, hR, by omega⟩, r3⟩
    · have hR2 : R = 2 ^ 53 := by omega
      refine ⟨2 ^ 52, ulp_exp (ilog2 n d) + 1, Or.inl ⟨le_rfl, by norm_num, by omega⟩, ?_⟩
      rw [r3, hR2, zpow_add₀ h2]
      norm_num
      ring
  · have hu : ulp_exp (ilog2 n d) = -1074 := by rw [ulp_exp]; omega
    have ha : ((0 : ℕ) : ℚ) * (2 : ℚ) ^ ulp_exp (ilog2 n d) ≤ (n : ℚ) / d := by
      rw [Nat.cast_zero, zero_mul]
      exact le_trans (two_zpow_pos _).le s1
    have hb : (n : ℚ) / d ≤ ((2 ^ 52 : ℕ) : ℚ) * (2 : ℚ) ^ ulp_exp (ilog2 n d) := by
      have : ((2 ^ 52 : ℕ) : ℚ) = (2 : ℚ) ^ (52 : ℤ) := by norm_num
      rw [this, hu, ← zpow_add₀ h2]
      refine le_trans s2.le ?_
      exact zpow_le_zpow_right₀ (by norm_num) (by omega)
    obtain ⟨R, _, r2, r3⟩ := round_pos_bounds n d _ _ hd ha hb
    by_cases hR0 : R = 0
    · left; rw [r3, hR0]; simp
    · right
      by_cases hR : R < 2 ^ 52
      · exact ⟨R, ulp_exp (ilog2 n d), Or.inr ⟨by omega, hR, hu⟩, r3⟩
      · exact ⟨R, ulp_exp (ilog2 n d), Or.inl ⟨by omega, by omega, by omega⟩, r3⟩

theorem rat_natAbs_div_den (y : ℚ) (hy : 0 < y) :
    0 < y.num.natAbs ∧ 0 < y.den ∧ ((y.num.natAbs : ℕ) : ℚ) / y.den = y := by
  have hnum : 0 < y.num := Rat.num_pos.mpr hy
  refine ⟨Int.natAbs_pos.mpr hnum.ne', y.den_pos, ?_⟩
  have : ((y.num.natAbs : ℕ) : ℚ) = (y.num : ℚ) := by
    have h : ((y.num.natAbs : ℕ) : ℤ) = y.num := Int.natAbs_of_nonneg hnum.le
    rw [← Int.cast_natCast, h]
  rw [this, Rat.num_div_den]

theorem rn_of_pos (q : ℚ) (hq : 0 < q) : rn q = round_pos q.num.natAbs q.den := by
  unfold rn
  rw [if_neg hq.ne', if_pos hq]

theorem rn_canonical (M : Nat) (t : ℤ) (hc : canonical M t) :
    rn (M * (2 : ℚ) ^ t) = M * (2 : ℚ) ^ t := by
  have hM : 0 < M := by
    rcases hc with ⟨a, _, _⟩ | ⟨a, _, _⟩
    · exact lt_of_lt_of_le (by norm_num) a
    · exact a
  have hy : (0 : ℚ) < M * (2 : ℚ) ^ t :=
    mul_pos (by exact_mod_cast hM) (two_zpow_pos t)
  obtain ⟨h1, h2, h3⟩ := rat_natAbs_div_den _ hy
  rw [rn_of_pos _ hy]
  exact round_pos_canonical _ _ M t h1 h2 hc h3

theorem rn_idem_pos (q : ℚ) (hq : 0 < q) : rn (rn q) = rn q := by
  obtain ⟨h1, h2, _⟩ := rat_natAbs_div_den q hq
  rw [rn_of_pos q hq]
  rcases round_pos_form _ _ h1 h2 with h | ⟨M, t, hc, h⟩
  · rw [h, rn_zero]
  · rw [h, rn_canonical M t hc]

/-- Rounding is idempotent: a rounded value is a binary64 number. -/
theorem rn_idem (q : ℚ) : rn (rn q) = rn q := by
  rcases lt_trichotomy q 0 with h | h | h
  · have hpos : 0 < -q := by linarith
    have e : rn q = -rn (-q) := by rw [rn_neg, neg_neg]
    rw [e, rn_neg, rn_idem_pos _ hpos]
  · rw [h, rn_zero, rn_zero]
  · exact rn_idem_pos q h

/-- A finite result of a binary64 operation is a binary64 number. -/
theorem fl_is_double (q y : ℚ) (h : fl q = some y) : is_double y := by
  unfold fl at h
  split_ifs at h with hm
  obtain rfl := Option.some.inj h
  unfold is_double fl
  rw [rn_idem, if_pos hm]

/-! ## Binary64: the wall statements in closed form -/

theorem F64_add_right_wall_eq (c : body) :
    F64.add_right_wall c
      = (F64.wall_step (-F64.K) (F64.delta_right c) c.mass c.v.x c.f.x).map
          (fun fx => { c with f := { c.f with x := fx } }) := by
  simp only [F64.add_right_wall, F64.wall_step, Option.bind_eq_bind, Option.pure_def]
  cases F64.delta_right c with
  | none => rfl
  | some d =>
    simp only [Option.some_bind]
    split_ifs
    · cases F64.contact_term (-F64.K) d c.mass c.v.x with
      | none => rfl
      | some t =>
        simp only [Option.some_bind]
        cases fadd c.f.x t <;> rfl
    · rfl

theorem F64_add_left_wall_eq (c : body) :
    F64.add_left_wall c
      = (F64.wall_step F64.K (F64.delta_left c) c.mass c.v.x c.f.x).map
          (fun fx => { c with f := { c.f with x := fx } }) := by
  simp only [F64.add_left_wall, F64.wall_step, Option.bind_eq_bind, Option.pure_def]
  cases F64.delta_left c with
  | none => rfl
  | some d =>
    simp only [Option.some_bind]
    split_ifs
    · cases F64.contact_term F64.K d c.mass c.v.x with
      | none => rfl
      | some t =>
        simp only [Option.some_bind]
        cases fadd c.f.x t <;> rfl
    · rfl

theorem fmul_neg_left (a b : ℚ) : fmul (-a) b = (fmul a b).map (fun y => -y) := by
  rw [fmul, fmul, neg_mul, fl_neg]

theorem fmul_neg_right (a b : ℚ) : fmul a (-b) = (fmul a b).map (fun y => -y) := by
  rw [fmul, fmul, mul_neg, fl_neg]

theorem fsub_neg_neg (a b : ℚ) : fsub (-a) (-b) = (fsub a b).map (fun y => -y) := by
  rw [fsub, fsub, ← fl_neg]; congr 1; ring

theorem fadd_neg_neg (a b : ℚ) : fadd (-a) (-b) = (fadd a b).map (fun y => -y) := by
  rw [fadd, fadd, ← fl_neg]; congr 1; ring

theorem F64_contact_term_neg (k d m v : ℚ) :
    F64.contact_term (-k) d m (-v) = (F64.contact_term k d m v).map (fun y => -y) := by
  simp only [F64.contact_term, Option.bind_eq_bind, fmul_neg_left, fmul_neg_right]
  cases fmul k d with
  | none => rfl
  | some t1 =>
    cases fmul F64.B m with
    | none => rfl
    | some t2 =>
      simp only [Option.map_some', Option.some_bind]
      cases fmul t2 v with
      | none => rfl
      | some t3 =>
        simp only [Option.map_some', Option.some_bind]
        exact fsub_neg_neg t1 t3

theorem F64_contact_term_is_double (k d m v t : ℚ) (h : F64.contact_term k d m v = some t) :
    is_double t := by
  simp only [F64.contact_term, Option.bind_eq_bind, Option.bind_eq_some] at h
  obtain ⟨t1, _, t2, _, t3, _, h⟩ := h
  exact fl_is_double _ _ h

theorem F64_wall_step_neg (k : ℚ) (o : Option ℚ) (m v fx : ℚ) :
    F64.wall_step (-k) o m (-v) (-fx) = (F64.wall_step k o m v fx).map (fun y => -y) := by
  simp only [F64.wall_step, Option.bind_eq_bind, Option.pure_def, F64_contact_term_neg]
  cases o with
  | none => rfl
  | some d =>
    simp only [Option.some_bind]
    split_ifs
    · cases F64.contact_term k d m v with
      | none => rfl
      | some t =>
        simp only [Option.map_some', Option.some_bind]
        exact fadd_neg_neg fx t
    · rfl

theorem F64_wall_step_none (k m v fx : ℚ) : F64.wall_step k none m v fx = none := rfl

theorem F64_wall_step_pos (k d m v fx : ℚ) (hd : d > 0) :
    F64.wall_step k (some d) m v fx = (F64.contact_term k d m v).bind (fun t => fadd fx t) := by
  simp [F64.wall_step, hd]

theorem F64_wall_step_nonpos (k d m v fx : ℚ) (hd : ¬ d > 0) :
    F64.wall_step k (some d) m v fx = some fx := by
  simp [F64.wall_step, hd]

theorem fadd_zero_left (t : ℚ) (ht : is_double t) : fadd 0 t = some t := by
  rw [fadd, zero_add]; exact ht

/-- Starting from `f[0] = 0`, the two wall statements give the same force in
either order. -/
theorem F64_wall_step_comm (k1 k2 : ℚ) (o1 o2 : Option ℚ) (m v : ℚ) :
    (F64.wall_step k1 o1 m v 0).bind (fun f1 => F64.wall_step k2 o2 m v f1)
      = (F64.wall_step k2 o2 m v 0).bind (fun f1 => F64.wall_step k1 o1 m v f1) := by
  cases o1 with
  | none =>
    simp only [F64_wall_step_none, Option.none_bind]
    cases F64.wall_step k2 o2 m v 0 <;> rfl
  | some d1 =>
    cases o2 with
    | none =>
      simp only [F64_wall_step_none, Option.none_bind]
      cases F64.wall_step k1 (some d1) m v 0 <;> rfl
    | some d2 =>
      by_cases h1 : d1 > 0
      · by_cases h2 : d2 > 0
        · simp only [F64_wall_step_pos _ _ _ _ _ h1, F64_wall_step_pos _ _ _ _ _ h2]
          cases e1 : F64.contact_term k1 d1 m v with
          | none =>
            simp only [Option.none_bind]
            cases e2 : F64.contact_term k2 d2 m v with
            | none => rfl
            | some t2 =>
              simp only [Option.some_bind,
                fadd_zero_left t2 (F64_contact_term_is_double _ _ _ _ _ e2), Option.none_bind]
          | some t1 =>
            simp only [Option.some_bind,
              fadd_zero_left t1 (F64_contact_term_is_double _ _ _ _ _ e1)]
            cases e2 : F64.contact_term k2 d2 m v with
            | none => rfl
            | some t2 =>
              simp only [Option.some_bind,
                fadd_zero_left t2 (F64_contact_term_is_double _ _ _ _ _ e2)]
              rw [fadd, fadd, add_comm]
        · simp only [F64_wall_step_pos _ _ _ _ _ h1, F64_wall_step_nonpos _ _ _ _ _ h2,
            Option.some_bind]
          cases F64.contact_term k1 d1 m v with
          | none => rfl
          | some t1 =>
            simp only [Option.some_bind]
            cases fadd 0 t1 <;> rfl
      · by_cases h2 : d2 > 0
        · simp only [F64_wall_step_pos _ _ _ _ _ h2, F64_wall_step_nonpos _ _ _ _ _ h1,
            Option.some_bind]
          cases F64.contact_term k2 d2 m v with
          | none => rfl
          | some t2 =>
            simp only [Option.some_bind]
            cases fadd 0 t2 <;> rfl
        · simp only [F64_wall_step_nonpos _ _ _ _ _ h1, F64_wall_step_nonpos _ _ _ _ _ h2,
            Option.some_bind]

/-! ## Binary64: the force evaluator on a reflected state -/

theorem F64_walls_eq (c : body) :
    (F64.add_right_wall c).bind F64.add_left_wall
      = ((F64.wall_step (-F64.K) (F64.delta_right c) c.mass c.v.x c.f.x).bind
          (fun f1 => F64.wall_step F64.K (F64.delta_left c) c.mass c.v.x f1)).map
          (fun fx => { c with f := { c.f with x := fx } }) := by
  rw [F64_add_right_wall_eq]
  cases F64.wall_step (-F64.K) (F64.delta_right c) c.mass c.v.x c.f.x with
  | none => rfl
  | some f1 =>
    simp only [Option.map_some', Option.some_bind]
    rw [F64_add_left_wall_eq]
    rfl

theorem F64_wall_steps_reflected (oR oL : Option ℚ) (m v : ℚ) :
    (F64.wall_step (-F64.K) oL m (-v) (-0)).bind
        (fun f1 => F64.wall_step F64.K oR m (-v) f1)
      = ((F64.wall_step (-F64.K) oR m v 0).bind
          (fun f1 => F64.wall_step F64.K oL m v f1)).map (fun y => -y) := by
  have h2 : ∀ f, F64.wall_step F64.K oR m (-v) (-f)
      = (F64.wall_step (-F64.K) oR m v f).map (fun y => -y) := by
    intro f
    have := F64_wall_step_neg (-F64.K) oR m v f
    rwa [neg_neg] at this
  rw [F64_wall_step_neg F64.K oL m v 0, F64_wall_step_comm (-F64.K) F64.K oR oL m v]
  cases F64.wall_step F64.K oL m v 0 with
  | none => rfl
  | some f => simp only [Option.map_some', Option.some_bind, h2]

theorem F64_walls_reflected (x : ℚ) (c : body) (hf : c.f.x = 0)
    (hR : F64.delta_right (F64.reflect_state x c) = F64.delta_left c)
    (hL : F64.delta_left (F64.reflect_state x c) = F64.delta_right c) :
    (F64.add_right_wall (F64.reflect_state x c)).bind F64.add_left_wall
      = ((F64.add_right_wall c).bind F64.add_left_wall).map (F64.reflect_state x) := by
  rw [F64_walls_eq, F64_walls_eq, hR, hL]
  have e := F64_wall_steps_reflected (F64.delta_right c) (F64.delta_left c) c.mass c.v.x
  have e1 : (F64.reflect_state x c).f.x = -0 := by
    show -c.f.x = -0
    rw [hf]
  have e2 : (F64.reflect_state x c).v.x = -c.v.x := rfl
  have e3 : (F64.reflect_state x c).mass = c.mass := rfl
  rw [e1, e2, e3, e, hf]
  cases (F64.wall_step (-F64.K) (F64.delta_right c) c.mass c.v.x 0).bind
      (fun f1 => F64.wall_step F64.K (F64.delta_left c) c.mass c.v.x f1) with
  | none => rfl
  | some fx =>
    simp only [Option.map_some', Option.some.injEq, F64.reflect_state, hf, neg_zero]

theorem F64_add_gravity_reflected (x : ℚ) (c : body) :
    F64.add_gravity (F64.reflect_state x c)
      = (F64.add_gravity c).map (F64.reflect_state x) := by
  simp only [F64.add_gravity, F64.reflect_state, Option.bind_eq_bind, Option.pure_def]
  cases fmul c.mass F64.G with
  | none => rfl
  | some t =>
    simp only [Option.some_bind]
    cases fsub c.f.z t <;> rfl

theorem F64_add_floor_reflected (x : ℚ) (c : body) :
    F64.add_floor (F64.reflect_state x c) = (F64.add_floor c).map (F64.reflect_state x) := by
  simp only [F64.add_floor, F64.delta_floor, F64.reflect_state, Option.bind_eq_bind,
    Option.pure_def]
  cases fsub c.radius c.r.z with
  | none => rfl
  | some d =>
    simp only [Option.some_bind]
    split_ifs
    · cases F64.contact_term F64.K d c.mass c.v.z with
      | none => rfl
      | some t =>
        simp only [Option.some_bind]
        cases fadd c.f.z t <;> rfl
    · rfl

theorem F64_add_upper_reflected (x : ℚ) (c : body) :
    F64.add_upper (F64.reflect_state x c) = (F64.add_upper c).map (F64.reflect_state x) := by
  simp only [F64.add_upper, F64.delta_upper, F64.reflect_state, Option.bind_eq_bind,
    Option.pure_def]
  cases fadd c.r.z c.radius with
  | none => rfl
  | some s =>
    simp only [Option.some_bind]
    cases fsub s F64.LZMAX with
    | none => rfl
    | some d =>
      simp only [Option.some_bind]
      split_ifs
      · cases F64.contact_term (-F64.K) d c.mass c.v.z with
        | none => rfl
        | some t =>
          simp only [Option.some_bind]
          cases fadd c.f.z t <;> rfl
      · rfl

theorem F64_add_gravity_fx (c c' : body) (h : F64.add_gravity c = some c') :
    c' = { c with f := { c.f with z := c'.f.z } } := by
  simp only [F64.add_gravity, Option.bind_eq_bind, Option.bind_eq_some, Option.pure_def,
    Option.some.injEq] at h
  obtain ⟨_, _, _, _, rfl⟩ := h
  rfl

theorem F64_add_floor_fx (c c' : body) (h : F64.add_floor c = some c') :
    c' = { c with f := { c.f with z := c'.f.z } } := by
  simp only [F64.add_floor, Option.bind_eq_bind, Option.bind_eq_some, Option.pure_def] at h
  obtain ⟨d, _, h⟩ := h
  split_ifs at h
  · simp only [Option.bind_eq_some, Option.some.injEq] at h
    obtain ⟨_, _, _, _, rfl⟩ := h
    rfl
  · obtain rfl := Option.some.inj h
    rfl

theorem F64_add_forces_reflected (x : ℚ) (c : body) (hf : c.f.x = 0)
    (hR : F64.delta_right (F64.reflect_state x c) = F64.delta_left c)
    (hL : F64.delta_left (F64.reflect_state x c) = F64.delta_right c) :
    F64.add_forces (F64.reflect_state x c)
      = (F64.add_forces c).map (F64.reflect_state x) := by
  simp only [F64.add_forces, Option.bind_eq_bind]
  rw [F64_add_gravity_reflected]
  cases h1 : F64.add_gravity c with
  | none => rfl
  | some c1 =>
    simp only [Option.map_some', Option.some_bind]
    rw [F64_add_floor_reflected]
    cases h2 : F64.add_floor c1 with
    | none => rfl
    | some c2 =>
      simp only [Option.map_some', Option.some_bind]
      have e1 := F64_add_gravity_fx c c1 h1
      have e2 := F64_add_floor_fx c1 c2 h2
      have hc2 : c2 = { c with f := { c.f with z := c2.f.z } } := by
        rw [e2, e1]
      have hf2 : c2.f.x = 0 := by rw [hc2]; exact hf
      have hR2 : F64.delta_right (F64.reflect_state x c2) = F64.delta_left c2 := by
        rw [hc2]; exact hR
      have hL2 : F64.delta_left (F64.reflect_state x c2) = F64.delta_right c2 := by
        rw [hc2]; exact hL
      have hw := F64_walls_reflected x c2 hf2 hR2 hL2
      rw [← Option.bind_assoc, ← Option.bind_assoc, hw]
      cases (F64.add_right_wall c2).bind F64.add_left_wall with
      | none => rfl
      | some c4 =>
        simp only [Option.map_some', Option.some_bind]
        exact F64_add_upper_reflected x c4

theorem F64_compute_force_reflected (b : body) (x : ℚ)
    (hR : F64.delta_right (F64.reflect b x) = F64.delta_left b)
    (hL : F64.delta_left (F64.reflect b x) = F64.delta_right b) :
    F64.compute_force [F64.reflect b x]
      = (F64.compute_force [b]).map (List.map (F64.reflect_state x)) := by
  have z : -(0.0 : ℚ) = 0.0 := by norm_num
  have hreset : reset_force (F64.reflect b x) = F64.reflect_state x (reset_force b) := by
    simp only [reset_force, F64.reflect, F64.reflect_state, z]
  have h0 : (reset_force b).f.x = 0 := by
    show (0.0 : ℚ) = 0
    norm_num
  rw [F64.compute_force, F64.compute_force, List.map_cons, List.map_nil, List.map_cons,
    List.map_nil, F64_for_each_single, F64_for_each_single, hreset,
    F64_add_forces_reflected x (reset_force b) h0 hR hL]
  cases F64.add_forces (reset_force b) <;> rfl

/-- C6 (amended): wall symmetry of the force law on the binary64 code.  Let
`b'` be `b` with `v_x` negated and `r_x` replaced by a position for which the
code computes a right-wall depth equal to the left-wall depth of `b` and a
left-wall depth equal to the right-wall depth of `b`.  Then `compute_force`
gives `f_x(b') = -f_x(b)`. -/
theorem wall_symmetry_rounded (b : body) (x : ℚ)
    (hR : F64.delta_right (F64.reflect b x) = F64.delta_left b)
    (hL : F64.delta_left (F64.reflect b x) = F64.delta_right b) :
    (F64.compute_force [F64.reflect b x]).map (List.map (fun c => c.f.x))
      = (F64.compute_force [b]).map (List.map (fun c => -c.f.x)) := by
  rw [F64_compute_force_reflected b x hR hL]
  cases F64.compute_force [b] with
  | none => rfl
  | some l =>
    simp only [Option.map_some', List.map_map]
    rfl

set_option maxRecDepth 100000 in
/-- Witness of C6 (amended): a body 0.05 inside the right wall and its mirror
image inside the left wall, for which the code computes equal depths. -/
theorem wall_symmetry_rounded_witness :
    (F64.compute_force [F64.reflect ⟨rn 1.23, 1 / 8, ⟨25 / 8, 0, 5⟩, ⟨2, 0, 0⟩, ⟨0, 0, 0⟩⟩
        (F64.LX + F64.LXMIN - 25 / 8)]).map (List.map (fun c => c.f.x))
      = (F64.compute_force [⟨rn 1.23, 1 / 8, ⟨25 / 8, 0, 5⟩, ⟨2, 0, 0⟩, ⟨0, 0, 0⟩⟩]).map
          (List.map (fun c => -c.f.x))
    ∧ (F64.compute_force [⟨rn 1.23, 1 / 8, ⟨25 / 8, 0, 5⟩, ⟨2, 0, 0⟩, ⟨0, 0, 0⟩⟩]).map
          (List.map (fun c => c.f.x)) = some [-5181672846266449 / 281474976710656] :=
  ⟨wall_symmetry_rounded ⟨rn 1.23, 1 / 8, ⟨25 / 8, 0, 5⟩, ⟨2, 0, 0⟩, ⟨0, 0, 0⟩⟩
      (F64.LX + F64.LXMIN - 25 / 8) (by decide!) (by decide!),
    by decide!⟩

set_option maxRecDepth 100000 in
/-- Counterexample to C6 as stated, on the binary64 code.  Run of
`compute_force` on a body touching the right wall and on its exact mirror
image: the code computes the depth `0` for the body and
`2^(-53)` for the mirror image, so the body gets no force while its mirror
image gets the damper force. -/
theorem wall_symmetry_rounding_counterexample :
    is_double (6958061424287417 / 2251799813685248)
    ∧ is_double (F64.LX + F64.LXMIN - 6958061424287417 / 2251799813685248)
    ∧ F64.delta_right ⟨rn 1.23, rn 0.11, ⟨6958061424287417 / 2251799813685248, 0, 5⟩,
        ⟨2, 0, 0⟩, ⟨0, 0, 0⟩⟩ = some 0
    ∧ F64.delta_left ⟨rn 1.23, rn 0.11,
        ⟨F64.LX + F64.LXMIN - 6958061424287417 / 2251799813685248, 0, 5⟩,
        ⟨-2, 0, 0⟩, ⟨0, 0, 0⟩⟩ = some (1 / 9007199254740992)
    ∧ (F64.compute_force [⟨rn 1.23, rn 0.11, ⟨6958061424287417 / 2251799813685248, 0, 5⟩,
        ⟨2, 0, 0⟩, ⟨0, 0, 0⟩⟩]).map (List.map (fun c => c.f.x)) = some [0]
    ∧ (F64.compute_force [⟨rn 1.23, rn 0.11,
        ⟨F64.LX + F64.LXMIN - 6958061424287417 / 2251799813685248, 0, 5⟩,
        ⟨-2, 0, 0⟩, ⟨0, 0, 0⟩⟩]).map (List.map (fun c => c.f.x))
        = some [1246371196874805 / 562949953421312]
    ∧ (1246371196874805 / 562949953421312 : ℚ) ≠ -0 := by
  decide!

/-! ## Binary64: steps that do not round agree with exact arithmetic -/

theorem F64_timestep_axis_exact (dt : ℚ) (c : body) (ii : Fin 3) (hm : c.mass ≠ 0)
    (h : F64.exact_axis dt c ii) :
    F64.timestep_axis dt c ii = some (timestep_axis dt c ii) := by
  obtain ⟨h1, h2, h3, h4, h5⟩ := h
  have e1 : fmul dt (c.f.get ii) = some (dt * c.f.get ii) := h1
  have e2 : fdiv (dt * c.f.get ii) c.mass = some (dt * c.f.get ii / c.mass) := by
    rw [fdiv, if_neg hm]; exact h2
  have e3 : fadd (c.v.get ii) (dt * c.f.get ii / c.mass)
      = some (c.v.get ii + dt * c.f.get ii / c.mass) := h3
  have e4 : fmul (c.v.get ii + dt * c.f.get ii / c.mass) dt
      = some ((c.v.get ii + dt * c.f.get ii / c.mass) * dt) := h4
  have e5 : fadd (c.r.get ii) ((c.v.get ii + dt * c.f.get ii / c.mass) * dt)
      = some (c.r.get ii + (c.v.get ii + dt * c.f.get ii / c.mass) * dt) := h5
  simp only [F64.timestep_axis, Option.bind_eq_bind, e1, e2, e3, e4, e5, Option.some_bind,
    Option.pure_def, Option.some.injEq, timestep_axis]
  fin_cases ii <;> rfl

theorem F64_timestep_body_exact (dt : ℚ) (c : body) (hm : c.mass ≠ 0)
    (h : F64.exact_step dt c) :
    F64.timestep_body dt c = some (timestep_body dt c) := by
  obtain ⟨h0, h1, h2⟩ := h
  have a0 := F64_timestep_axis_exact dt c 0 hm h0
  have a1 := F64_timestep_axis_exact dt (timestep_axis dt c 0) 1 hm h1
  have a2 := F64_timestep_axis_exact dt (timestep_axis dt (timestep_axis dt c 0) 1) 2 hm h2
  simp only [F64.timestep_body, timestep_body, axes, List.foldlM, List.foldl, a0, a1, a2,
    Option.bind_eq_bind, Option.some_bind, Option.pure_def]

theorem timestep_body_mass (dt : ℚ) (c : body) : (timestep_body dt c).mass = c.mass := by
  rw [timestep_body_eq]

theorem timestep_body_iterate_mass (dt : ℚ) (k : Nat) (c : body) :
    ((timestep_body dt)^[k] c).mass = c.mass := by
  rw [timestep_body_iterate]

theorem F64_timestep_iterate_exact (dt : ℚ) (n : Nat) :
    ∀ c : body, c.mass ≠ 0 → (∀ k < n, F64.exact_step dt ((timestep_body dt)^[k] c)) →
      F64.timestep_iterate dt n [c] = some [(timestep_body dt)^[n] c] := by
  induction n with
  | zero => intro c _ _; rfl
  | succ m ih =>
    intro c hm h
    have h0 := F64_timestep_body_exact dt c hm (h 0 (Nat.succ_pos m))
    have hm1 : (timestep_body dt c).mass ≠ 0 := by rw [timestep_body_mass]; exact hm
    have hrec := ih (timestep_body dt c) hm1 (fun k hk => by
      have := h (k + 1) (Nat.succ_lt_succ hk)
      rwa [Function.iterate_succ_apply] at this)
    simp only [F64.timestep_iterate, F64.timestep, F64_for_each_single, h0, Option.map_some',
      Option.bind_eq_bind, Option.some_bind, Function.iterate_succ_apply]
    exact hrec

theorem F64_start_axis_exact (dt : ℚ) (c : body) (ii : Fin 3) (hm : c.mass ≠ 0)
    (h : F64.exact_start_axis dt c ii) :
    F64.start_axis dt c ii = some (start_axis dt c ii) := by
  obtain ⟨h1, h2, h3, h4⟩ := h
  have hm2 : 2 * c.mass ≠ 0 := mul_ne_zero (by norm_num) hm
  have e1 : fmul dt (c.f.get ii) = some (dt * c.f.get ii) := h1
  have e2 : fmul 2 c.mass = some (2 * c.mass) := h2
  have e3 : fdiv (dt * c.f.get ii) (2 * c.mass) = some (dt * c.f.get ii / (2 * c.mass)) := by
    rw [fdiv, if_neg hm2]; exact h3
  have e4 : fsub (c.v.get ii) (dt * c.f.get ii / (2 * c.mass))
      = some (c.v.get ii - dt * c.f.get ii / (2 * c.mass)) := h4
  simp only [F64.start_axis, Option.bind_eq_bind, e1, e2, e3, e4, Option.some_bind,
    Option.pure_def, start_axis]

theorem F64_start_body_exact (dt : ℚ) (c : body) (hm : c.mass ≠ 0)
    (h : F64.exact_start dt c) :
    F64.start_body dt c = some (start_body dt c) := by
  obtain ⟨h0, h1, h2⟩ := h
  have a0 := F64_start_axis_exact dt c 0 hm h0
  have a1 := F64_start_axis_exact dt (start_axis dt c 0) 1 hm h1
  have a2 := F64_start_axis_exact dt (start_axis dt (start_axis dt c 0) 1) 2 hm h2
  simp only [F64.start_body, start_body, axes, List.foldlM, List.foldl, a0, a1, a2,
    Option.bind_eq_bind, Option.some_bind, Option.pure_def]

/-! ## Binary64: the leapfrog scheme under a fixed force -/

theorem timestep_body_iterate_start (dt : ℚ) (n : Nat) (c : body) :
    (timestep_body dt)^[n] (start_body dt c) =
      { mass := c.mass, radius := c.radius, f := c.f,
        v := ⟨c.v.x + (n - 1 / 2) * dt * c.f.x / c.mass,
              c.v.y + (n - 1 / 2) * dt * c.f.y / c.mass,
              c.v.z + (n - 1 / 2) * dt * c.f.z / c.mass⟩,
        r := ⟨c.r.x + n * dt * c.v.x + (1 / 2) * (c.f.x / c.mass) * (n * dt) ^ 2,
              c.r.y + n * dt * c.v.y + (1 / 2) * (c.f.y / c.mass) * (n * dt) ^ 2,
              c.r.z + n * dt * c.v.z + (1 / 2) * (c.f.z / c.mass) * (n * dt) ^ 2⟩ } := by
  rw [timestep_body_iterate, start_body_eq]
  simp only [body.mk.injEq, Vec3.mk.injEq, true_and, and_true]
  refine ⟨⟨?_, ?_, ?_⟩, ⟨?_, ?_, ?_⟩⟩ <;> ring

/-- C14 (amended): leapfrog realisation on the binary64 code.  For a body of
non-zero mass under a force held fixed, if no operation of
`start_timeintegration(dt)` and of the following `n ≥ 1` calls of
`timestep(dt)` rounds, the code yields the velocity
`v0 + (n - 1/2)*dt*f/mass` and the position
`r0 + n*dt*v0 + (1/2)*(f/mass)*(n*dt)^2`; and if no operation of `n` calls of
`timestep(dt)` without the back-step rounds, it yields the position
`r0 + n*dt*v0 + (n*(n+1)/2)*dt^2*f/mass`. -/
theorem leapfrog_fixed_force_rounded (c : body) (dt : ℚ) (n : Nat)
    (hm : c.mass ≠ 0) (_hn : 1 ≤ n) :
    (F64.exact_start dt c →
      (∀ k < n, F64.exact_step dt ((timestep_body dt)^[k] (start_body dt c))) →
      (F64.start_timeintegration [c] dt).bind (F64.timestep_iterate dt n) =
        some [{ mass := c.mass, radius := c.radius, f := c.f,
                v := ⟨c.v.x + (n - 1 / 2) * dt * c.f.x / c.mass,
                      c.v.y + (n - 1 / 2) * dt * c.f.y / c.mass,
                      c.v.z + (n - 1 / 2) * dt * c.f.z / c.mass⟩,
                r := ⟨c.r.x + n * dt * c.v.x + (1 / 2) * (c.f.x / c.mass) * (n * dt) ^ 2,
                      c.r.y + n * dt * c.v.y + (1 / 2) * (c.f.y / c.mass) * (n * dt) ^ 2,
                      c.r.z + n * dt * c.v.z + (1 / 2) * (c.f.z / c.mass) * (n * dt) ^ 2⟩ }])
    ∧ ((∀ k < n, F64.exact_step dt ((timestep_body dt)^[k] c)) →
      F64.timestep_iterate dt n [c] =
        some [{ mass := c.mass, radius := c.radius, f := c.f,
                v := ⟨c.v.x + n * dt * c.f.x / c.mass, c.v.y + n * dt * c.f.y / c.mass,
                      c.v.z + n * dt * c.f.z / c.mass⟩,
                r := ⟨c.r.x + n * dt * c.v.x + (n * (n + 1) / 2) * dt ^ 2 * c.f.x / c.mass,
                      c.r.y + n * dt * c.v.y + (n * (n + 1) / 2) * dt ^ 2 * c.f.y / c.mass,
                      c.r.z + n * dt * c.v.z
                        + (n * (n + 1) / 2) * dt ^ 2 * c.f.z / c.mass⟩ }]) := by
  constructor
  · intro hs ht
    have h0 := F64_start_body_exact dt c hm hs
    have hm1 : (start_body dt c).mass ≠ 0 := by rw [start_body_eq]; exact hm
    have h1 := F64_timestep_iterate_exact dt n (start_body dt c) hm1 ht
    rw [F64.start_timeintegration, F64_for_each_single, h0, Option.map_some',
      Option.some_bind, h1, timestep_body_iterate_start]
  · intro ht
    rw [F64_timestep_iterate_exact dt n c hm ht, timestep_body_iterate]

set_option maxRecDepth 100000 in
/-- Witness of C14 (amended): two steps of a body of mass 2 under the force
`(4, 0, -2)` with `dt = 1/2`, where every operation is exact. -/
theorem leapfrog_fixed_force_rounded_witness :
    (F64.start_timeintegration [⟨2, 1, ⟨0, 0, 5⟩, ⟨1, 0, 0⟩, ⟨4, 0, -2⟩⟩] (1 / 2)).bind
        (F64.timestep_iterate (1 / 2) 2)
      = some [⟨2, 1, ⟨2, 0, 9 / 2⟩, ⟨5 / 2, 0, -3 / 4⟩, ⟨4, 0, -2⟩⟩]
    ∧ F64.timestep_iterate (1 / 2) 2 [⟨2, 1, ⟨0, 0, 5⟩, ⟨1, 0, 0⟩, ⟨4, 0, -2⟩⟩]
      = some [⟨2, 1, ⟨5 / 2, 0, 17 / 4⟩, ⟨3, 0, -1⟩, ⟨4, 0, -2⟩⟩] := by
  have h := leapfrog_fixed_force_rounded ⟨2, 1, ⟨0, 0, 5⟩, ⟨1, 0, 0⟩, ⟨4, 0, -2⟩⟩ (1 / 2) 2
    (by norm_num) (by norm_num)
  refine ⟨(h.1 (by decide!) (by decide!)).trans ?_, (h.2 (by decide!)).trans ?_⟩
  · norm_num
  · norm_num

set_option maxRecDepth 100000 in
/-- Counterexample to C14 as stated, on the binary64 code.  Run of
`start_timeintegration` and three calls of `timestep` for
`mass = 1.23`, `f_x = 1`, `v_x = 0.87`, `dt = 0.01`: velocity and position
differ from the closed forms, both from their exact values and from their
values when the closed forms are themselves evaluated in binary64. -/
theorem leapfrog_rounding_counterexample :
    rn 1.23 ≠ 0
    ∧ (F64.start_timeintegration
          [⟨rn 1.23, rn 0.16, ⟨0, 0, 0⟩, ⟨rn 0.87, 0, 0⟩, ⟨1, 0, 0⟩⟩] (rn 0.01)).bind
        (F64.timestep_iterate (rn 0.01) 3)
      = some [⟨rn 1.23, rn 0.16, ⟨3814131477588079 / 144115188075855872, 0, 0⟩,
          ⟨8019336507208831 / 9007199254740992, 0, 0⟩, ⟨1, 0, 0⟩⟩]
    ∧ (8019336507208831 / 9007199254740992 : ℚ)
        ≠ rn 0.87 + ((3 : ℕ) - 1 / 2) * rn 0.01 * 1 / rn 1.23
    ∧ (3814131477588079 / 144115188075855872 : ℚ)
        ≠ 0 + (3 : ℕ) * rn 0.01 * rn 0.87 + (1 / 2) * (1 / rn 1.23) * ((3 : ℕ) * rn 0.01) ^ 2
    ∧ ((fmul (5 / 2) (rn 0.01)).bind fun a => (fmul a 1).bind fun b =>
          (fdiv b (rn 1.23)).bind fun q => fadd (rn 0.87) q)
        = some (4009668253604415 / 4503599627370496)
    ∧ (8019336507208831 / 9007199254740992 : ℚ) ≠ 4009668253604415 / 4503599627370496
    ∧ ((fmul 3 (rn 0.01)).bind fun t1 => (fmul t1 (rn 0.87)).bind fun t2 =>
          (fadd 0 t2).bind fun t3 => (fdiv 1 (rn 1.23)).bind fun t4 =>
          (fmul (1 / 2) t4).bind fun t5 => (fmul t1 t1).bind fun t6 =>
          (fmul t5 t6).bind fun t7 => fadd t3 t7)
        = some (1907065738794039 / 72057594037927936)
    ∧ (3814131477588079 / 144115188075855872 : ℚ) ≠ 1907065738794039 / 72057594037927936 := by
  decide!

end MD
